import Mathlib

/-!
# Verification of the icechunk-js read-only client core

A shallow embedding, in Lean 4, of the format-decoding and lookup pipeline of
the `icechunk-js` repository (a TypeScript read-only client for Icechunk
repositories), together with theorems settling the frozen specification
claims.

Modelling conventions
- JavaScript strings are modelled as `List Char`; `Uint8Array` byte buffers as
  `List Nat` whose elements are below 256 (the `Uint8Array` invariant).
- JavaScript 32-bit bitwise arithmetic (`<<`, `|`, `>>>`, `&`) on nonnegative
  values is modelled with `Nat` arithmetic reduced `% 2 ^ 32`; `x >>> s` is
  `x / 2 ^ s` and `x & 31` is `x % 32`.
- Fallible code (`throw`) is modelled with `Except`; JS `undefined` results
  with `Option`.
- `Map` objects are modelled as association lists in insertion order with
  JS `Map.get` / `Map.set` semantics.
- External collaborators that the core only calls (zstd decompression,
  `JSON.parse`, the HTTP backend, the manifest LRU) are abstracted as
  function parameters or opaque tokens; everything the claims measure is
  translated from the source.
-/

namespace Icechunk

/-! ## Crockford Base32 codec (`src/encoding/crockford-base32.ts`) -/

/-- `const ALPHABET = "0123456789ABCDEFGHJKMNPQRSTVWXYZ"`. -/
def ALPHABET : List Char := "0123456789ABCDEFGHJKMNPQRSTVWXYZ".data

/-- The `DECODE_MAP` table: every alphabet character (upper- and lowercase)
maps to its index, then the Crockford substitutions `O/o → 0`, `I/i/L/l → 1`.
Keys never collide, so first-match lookup equals the JS object lookup. -/
def DECODE_MAP_ENTRIES : List (Char × Nat) :=
  (ALPHABET.enum.flatMap fun p => [(p.2, p.1), (p.2.toLower, p.1)]) ++
    [('O', 0), ('o', 0), ('I', 1), ('i', 1), ('L', 1), ('l', 1)]

/-- `DECODE_MAP[char]`, `undefined` for unknown characters. -/
def DECODE_MAP (c : Char) : Option Nat :=
  (DECODE_MAP_ENTRIES.find? fun p => p.1 = c).map (·.2)

/-- The inner emission loop of `crockfordBase32Encode`:
`for (bits += 8; bits >= 5; bits -= 5) output += ALPHABET[(value >>> (bits - 5)) & 31]`.
Returns the emitted characters and the final `bits`. -/
def encodeEmit (value : Nat) (bits : Nat) : List Char × Nat :=
  if h : 5 ≤ bits then
    let r := encodeEmit value (bits - 5)
    (ALPHABET.getD (value / 2 ^ (bits - 5) % 32) '0' :: r.1, r.2)
  else ([], bits)
termination_by bits
decreasing_by omega

/-- The byte loop of `crockfordBase32Encode`, carrying `value` and `bits`.
`value = (value << 8) | input[i]` is 32-bit arithmetic, hence `% 2 ^ 32`.
On exhaustion the trailing-bits branch
`if (bits > 0) output += ALPHABET[(value << (5 - bits)) & 31]` runs. -/
def encodeLoop : List Nat → Nat → Nat → List Char
  | [], value, bits =>
      if 0 < bits then [ALPHABET.getD (value * 2 ^ (5 - bits) % 32) '0'] else []
  | b :: rest, value, bits =>
      let v := (value * 256 + b) % 2 ^ 32
      let e := encodeEmit v (bits + 8)
      e.1 ++ encodeLoop rest v e.2

/-- `crockfordBase32Encode(input)`: MSB-first 8-bit to 5-bit repacking. -/
def crockfordBase32Encode (input : List Nat) : List Char :=
  encodeLoop input 0 0

/-- The character loop of `crockfordBase32Decode`: accumulate five bits per
character (`value = (value << 5) | decoded`), emit a byte whenever eight bits
are available; unknown characters throw. The JS version writes into a
preallocated `Uint8Array(floor(5n/8))`; exactly that many bytes are emitted,
so sequential accumulation is the same function. -/
def decodeLoop : List Char → Nat → Nat → Except String (List Nat)
  | [], _, _ => .ok []
  | c :: rest, value, bits =>
      match DECODE_MAP c with
      | none => .error "Invalid Crockford Base32 character"
      | some d =>
          let v := (value * 32 + d) % 2 ^ 32
          if 8 ≤ bits + 5 then
            (decodeLoop rest v (bits + 5 - 8)).map
              (fun out => v / 2 ^ (bits + 5 - 8) % 256 :: out)
          else
            decodeLoop rest v (bits + 5)

/-- `crockfordBase32Decode(input)`. -/
def crockfordBase32Decode (input : List Char) : Except String (List Nat) :=
  decodeLoop input 0 0

/-- `isValidSnapshotId(id)`: the regex `/^[0-9A-HJ-NP-TV-Z]{20}$/i`.
A character matches the class iff, after upcasing ASCII lowercase, its code
point is a digit or in `A–H`, `J–N`, `P–T`, `V–Z`. -/
def snapshotIdChar (c : Char) : Bool :=
  let u := if 97 ≤ c.toNat ∧ c.toNat ≤ 122 then c.toNat - 32 else c.toNat
  (48 ≤ u ∧ u ≤ 57) ∨ (65 ≤ u ∧ u ≤ 72) ∨ (74 ≤ u ∧ u ≤ 78) ∨
    (80 ≤ u ∧ u ≤ 84) ∨ (86 ≤ u ∧ u ≤ 90)

/-- `isValidSnapshotId(id)` from `src/encoding/crockford-base32.ts`. -/
def isValidSnapshotId (id : List Char) : Bool :=
  id.length = 20 && id.all snapshotIdChar


/-! ## JSON values and `JSON.stringify`

JSON documents are modelled with integer numbers: every number the claims
exercise (`zarr_format`, shapes, offsets) is integral, and `JSON.parse` can
produce neither `NaN` nor `Infinity`, so the exact-integer idealisation of
IEEE doubles is faithful on the reachable documents. -/

inductive Json where
  | null
  | bool (b : Bool)
  | num (n : Int)
  | str (s : List Char)
  | arr (items : List Json)
  | obj (entries : List (List Char × Json))

/-- An opening brace, kept as a code point. -/
def LBRACE : Char := Char.ofNat 123

/-- A closing brace, kept as a code point. -/
def RBRACE : Char := Char.ofNat 125

/-- Lowercase hex digit, as produced by `toString(16)`. -/
def hexDigitChar (n : Nat) : Char := "0123456789abcdef".data.getD n '0'

/-- The escaping `JSON.stringify` applies inside string literals. -/
def jsonEscapeChar (c : Char) : List Char :=
  if c = '"' then ['\\', '"']
  else if c = '\\' then ['\\', '\\']
  else if c = Char.ofNat 8 then ['\\', 'b']
  else if c = Char.ofNat 9 then ['\\', 't']
  else if c = Char.ofNat 10 then ['\\', 'n']
  else if c = Char.ofNat 12 then ['\\', 'f']
  else if c = Char.ofNat 13 then ['\\', 'r']
  else if c.toNat < 32 then
    ['\\', 'u', '0', '0', hexDigitChar (c.toNat / 16), hexDigitChar (c.toNat % 16)]
  else [c]

/-- Escape a whole string body. -/
def jsonEscape (s : List Char) : List Char := s.flatMap jsonEscapeChar

mutual

/-- `JSON.stringify` (no indentation), as used throughout `ref.ts`. -/
def Json.stringify : Json → List Char
  | .null => "null".data
  | .bool true => "true".data
  | .bool false => "false".data
  | .num n => (Int.repr n).data
  | .str s => '"' :: (jsonEscape s ++ ['"'])
  | .arr items => '[' :: (Json.stringifyList items ++ [']'])
  | .obj kvs => LBRACE :: (Json.stringifyEntries kvs ++ [RBRACE])

/-- Comma-separated array elements. -/
def Json.stringifyList : List Json → List Char
  | [] => []
  | [x] => x.stringify
  | x :: y :: rest => x.stringify ++ ',' :: Json.stringifyList (y :: rest)

/-- Comma-separated `"key":value` object entries. -/
def Json.stringifyEntries : List (List Char × Json) → List Char
  | [] => []
  | [(k, v)] => '"' :: (jsonEscape k ++ '"' :: ':' :: v.stringify)
  | (k, v) :: e :: rest =>
      ('"' :: (jsonEscape k ++ '"' :: ':' :: v.stringify)) ++
        ',' :: Json.stringifyEntries (e :: rest)

end

/-! ## Ref parsing (`src/core/ref.ts`) -/

/-- `Object.keys` index strings for array inputs (`"0"`, `"1"`, ...). -/
def natDigits (n : Nat) : List Char := (Nat.repr n).data

/-- The key/value checks of `decodeRef` after `Object.keys`:
`keys.length !== 1 || keys[0] !== "snapshot"` throws, a non-string value
throws, an id failing `isValidSnapshotId` throws. -/
def decodeRefEntries : List (List Char × Json) → Except (List Char) (List Char)
  | [(k, v)] =>
      if k = "snapshot".data then
        match v with
        | .str s =>
            if isValidSnapshotId s then .ok s
            else .error "Invalid snapshot ID format".data
        | _ => .error "Expected snapshot to be a string".data
      else .error "Expected object with only a snapshot property".data
  | _ => .error "Expected object with only a snapshot property".data

/-- `decodeRef(obj)`: `typeof obj !== "object" || obj === null` throws first
(arrays are `typeof "object"` with index keys), then the key checks run. -/
def decodeRef : Json → Except (List Char) (List Char)
  | .null => .error "Expected ref object".data
  | .obj kvs => decodeRefEntries kvs
  | .arr items => decodeRefEntries (items.enum.map fun p => (natDigits p.1, p.2))
  | _ => .error "Expected ref object".data

/-! ## Snapshot data model (`src/core/types.ts`, `src/core/snapshot.ts`) -/

/-- `ManifestRef { id, extents }`; extents are inclusive `(start, end)` u32
pairs, one per dimension. -/
structure ManifestRef where
  id : List Char
  extents : List (Nat × Nat)
deriving DecidableEq

/-- `chunkKeyEncoding ∈ { "slash", "dot" }`. -/
inductive ChunkKeyEncoding where
  | slash
  | dot
deriving DecidableEq

/-- Decoded `ZarrArrayMetadata`. -/
structure ZarrArrayMetadata where
  shape : List Nat
  chunkShape : List Nat
  dataType : List Char
  fillValue : Json
  codecs : List Json
  dimensionNames : Option (List (List Char))
  chunkKeyEncoding : ChunkKeyEncoding

/-- `nodeData` is `group{}` or `array{ zarrMetadata, manifests }`. -/
inductive NodeData where
  | group
  | array (zarrMetadata : ZarrArrayMetadata) (manifests : List ManifestRef)

/-- A decoded `NodeSnapshot`; `id` is the raw 8-byte node id and
`userAttributes` the parsed `userData` JSON. -/
structure NodeSnapshot where
  id : List Nat
  path : List Char
  userAttributes : Json
  nodeData : NodeData

/-- A decoded `Snapshot` (the fields the lookup path reads). -/
structure Snapshot where
  id : List Char
  parentId : Option (List Char)
  message : List Char
  nodes : List NodeSnapshot

/-- `path.replace(/^\//, "")`: strips one leading slash. -/
def dropOneLeadingSlash : List Char → List Char
  | '/' :: rest => rest
  | l => l

/-- `path.replace(/\/$/, "")`: strips one trailing slash. -/
def dropOneTrailingSlash (l : List Char) : List Char :=
  if l.getLast? = some '/' then l.dropLast else l

/-- `normalizePath` from `snapshot.ts`: root (`"/"` or `""`) becomes `""`,
otherwise one leading and one trailing slash are stripped. -/
def normalizePath (path : List Char) : List Char :=
  if path = ['/'] ∨ path = [] then []
  else dropOneTrailingSlash (dropOneLeadingSlash path)

/-- Code-point lexicographic comparison of strings. ECMA-262 leaves
`a.localeCompare(b)` implementation-defined except that it is a consistent
comparison and that Strings canonically equivalent under the Unicode
standard must compare as identical — so `localeCompare` can return `0` on
distinct strings, and `findNodeWith` below keeps the collator abstract.
`compareChars` is one admissible collator, and the separating one (`.eq`
only on identical strings, see `compareChars_eq_iff`); it is the definite
representative used by `findNode` in the store model, where only the
`some`/`none` outcome of the lookup is consumed. -/
def compareChars : List Char → List Char → Ordering
  | [], [] => .eq
  | [], _ :: _ => .lt
  | _ :: _, [] => .gt
  | a :: as, b :: bs =>
      if a < b then .lt else if b < a then .gt else compareChars as bs

/-- The `while (low <= high)` binary-search loop of `findNode`.
`nodes[mid]` is always in range on reachable calls (`0 ≤ low ≤ mid ≤ high`);
an out-of-range index is mapped to a `none` result. -/
def findNodeAux (nodes : List NodeSnapshot) (target : List Char)
    (low high : Int) : Option NodeSnapshot :=
  if _h : low ≤ high then
    match nodes.get? ((low + high) / 2).toNat with
    | none => none
    | some node =>
        match compareChars node.path target with
        | .eq => some node
        | .lt => findNodeAux nodes target ((low + high) / 2 + 1) high
        | .gt => findNodeAux nodes target low ((low + high) / 2 - 1)
  else none
termination_by (high + 1 - low).toNat
decreasing_by all_goals omega

/-- `findNode(snapshot, path)`: binary search on the sorted `nodes` vector,
at the code-point collator (`findNodeWith` keeps the collator abstract). -/
def findNode (snapshot : Snapshot) (path : List Char) : Option NodeSnapshot :=
  findNodeAux snapshot.nodes (normalizePath path) 0 (snapshot.nodes.length - 1)

/-- The `while (low <= high)` binary-search loop of `findNode` with the
comparison `node.path.localeCompare(normalizedPath)` kept abstract:
`collate` stands for the host's implementation-defined `localeCompare`.
`findNodeAux` is the instance at `compareChars`. -/
def findNodeAuxWith (collate : List Char → List Char → Ordering)
    (nodes : List NodeSnapshot) (target : List Char)
    (low high : Int) : Option NodeSnapshot :=
  if _h : low ≤ high then
    match nodes.get? ((low + high) / 2).toNat with
    | none => none
    | some node =>
        match collate node.path target with
        | .eq => some node
        | .lt => findNodeAuxWith collate nodes target ((low + high) / 2 + 1) high
        | .gt => findNodeAuxWith collate nodes target low ((low + high) / 2 - 1)
  else none
termination_by (high + 1 - low).toNat
decreasing_by all_goals omega

/-- `findNode(snapshot, path)` with the `localeCompare` collator abstract. -/
def findNodeWith (collate : List Char → List Char → Ordering)
    (snapshot : Snapshot) (path : List Char) : Option NodeSnapshot :=
  findNodeAuxWith collate snapshot.nodes (normalizePath path) 0
    (snapshot.nodes.length - 1)

/-- The fragment of Unicode canonical decomposition used below:
`UnicodeData.txt` gives U+00E9 (LATIN SMALL LETTER E WITH ACUTE) the
canonical decomposition U+0065 U+0301 (`e` followed by COMBINING ACUTE
ACCENT); identity on every other character. -/
def canonDecomposeFragment (c : Char) : List Char :=
  if c = Char.ofNat 233 then [Char.ofNat 101, Char.ofNat 769] else [c]

/-- Canonical decomposition of a string under the fragment above. -/
def canonDecomposeAll (s : List Char) : List Char :=
  s.foldr (fun c acc => canonDecomposeFragment c ++ acc) []

/-- A `localeCompare`-conforming collator on the fragment it models: it
compares canonical decompositions code-point-wise, so the canonically
equivalent strings ⟨U+00E9⟩ and ⟨U+0065, U+0301⟩ — which ECMA-262 obliges
`localeCompare` to treat as identical — compare `.eq` although distinct. -/
def collateNFD (x y : List Char) : Ordering :=
  compareChars (canonDecomposeAll x) (canonDecomposeAll y)

/-! ## `zarr.json` synthesis (`encodeZarrJson` in `snapshot.ts`) -/

/-- JS truthiness on JSON values (`NaN` is unreachable: see `Json`). -/
def jsTruthy : Json → Bool
  | .null => false
  | .bool b => b
  | .num n => n != 0
  | .str s => !s.isEmpty
  | .arr _ => true
  | .obj _ => true

/-- Property access `j.k` on a JSON value; non-objects give `undefined`. -/
def jsGet (j : Json) (k : List Char) : Option Json :=
  match j with
  | .obj kvs => (kvs.find? fun p => p.1 = k).map (·.2)
  | _ => none

/-- Truthiness of a possibly-`undefined` value. -/
def jsTruthyOpt : Option Json → Bool
  | some v => jsTruthy v
  | none => false

/-- The Zarr v3 array document `encodeZarrJson` builds from decoded metadata
(field order as written in the source object literal; a JS `undefined`
`dimension_names` is omitted by `JSON.stringify`). -/
def synthesizedArrayDoc (md : ZarrArrayMetadata) : Json :=
  .obj
    ([("zarr_format".data, .num 3),
      ("node_type".data, .str "array".data),
      ("shape".data, .arr (md.shape.map fun n => .num (Int.ofNat n))),
      ("data_type".data, .str md.dataType),
      ("chunk_grid".data, .obj
        [("name".data, .str "regular".data),
         ("configuration".data, .obj
           [("chunk_shape".data,
             .arr (md.chunkShape.map fun n => .num (Int.ofNat n)))])]),
      ("chunk_key_encoding".data, .obj
        [("name".data, .str (if md.chunkKeyEncoding = .slash then
            "default".data else "v2".data)),
         ("configuration".data, .obj
           [("separator".data, .str (if md.chunkKeyEncoding = .slash then
               "/".data else ".".data))])]),
      ("fill_value".data, md.fillValue),
      ("codecs".data, .arr md.codecs)] ++
      (match md.dimensionNames with
       | some names => [("dimension_names".data, .arr (names.map fun s => .str s))]
       | none => []) ++
      [("attributes".data, .obj [])])

/-- `encodeZarrJson(node)`: groups get the fixed group document; arrays emit
`userAttributes` verbatim when `node.userAttributes.zarr_format` is truthy,
and otherwise the synthesised v3 document. -/
def encodeZarrJson (node : NodeSnapshot) : List Char :=
  match node.nodeData with
  | .group =>
      Json.stringify (.obj
        [("zarr_format".data, .num 3),
         ("node_type".data, .str "group".data),
         ("attributes".data, node.userAttributes)])
  | .array md _ =>
      if jsTruthyOpt (jsGet node.userAttributes "zarr_format".data) then
        Json.stringify node.userAttributes
      else
        Json.stringify (synthesizedArrayDoc md)


/-! ## Manifest data model and decoder
(`src/core/manifest.ts`, the `ChunkRef`-table decoder revision) -/

/-- Decoded chunk payload (tagged variant): inline / native / virtual. -/
inductive ChunkPayload where
  | inline (data : List Nat)
  | native (id : List Char) (offset : Nat) (length : Nat)
  | virtual (location : List Char) (offset : Nat) (length : Nat)
deriving DecidableEq

/-- The optional fields of a `ChunkRef` FlatBuffers table as the reader
observes them (`none` = field absent from the vtable). `readByteVector` and
`readString` render an absent field as empty, which the `.getD` defaults in
`parseChunkRef` reproduce. -/
structure ChunkRefTable where
  index : List Nat
  inlineData : Option (List Nat)
  offset : Option Nat
  length : Option Nat
  chunkId : Option (List Nat)
  location : Option (List Char)
deriving DecidableEq

/-- `parseChunkRef(bb, tableOffset)`: reads coords, offset and length, then
tries `inline`, `location` (virtual) and `chunk_id` (native) in that order,
returning `null` when none is usable. -/
def parseChunkRef (t : ChunkRefTable) : Option (List Nat × ChunkPayload) :=
  let chunkOffset := t.offset.getD 0
  let chunkLength := t.length.getD 0
  let inlineData := t.inlineData.getD []
  if inlineData.length > 0 then
    some (t.index, .inline inlineData)
  else
    let location := t.location.getD []
    if location.length > 0 then
      some (t.index, .virtual location chunkOffset chunkLength)
    else
      match t.chunkId with
      | some id =>
          some (t.index, .native (crockfordBase32Encode id) chunkOffset chunkLength)
      | none => none

/-- The storage-mode selection exactly as claim C1 words it: if the inline
byte vector is present and non-empty the payload is inline; otherwise if the
location string is present and non-empty the payload is virtual; otherwise
if `chunk_id` is present the payload is native; otherwise the record is
skipped. Stated from the claim, to be compared with `parseChunkRef`. -/
def specStorageModeSelection (t : ChunkRefTable) :
    Option (List Nat × ChunkPayload) :=
  if t.inlineData.isSome && t.inlineData.getD [] != [] then
    some (t.index, .inline (t.inlineData.getD []))
  else if t.location.isSome && t.location.getD [] != [] then
    some (t.index, .virtual (t.location.getD []) (t.offset.getD 0) (t.length.getD 0))
  else
    match t.chunkId with
    | some id =>
        some (t.index,
          .native (crockfordBase32Encode id) (t.offset.getD 0) (t.length.getD 0))
    | none => none

/-- `Array.from(arr).map(b => b.toString(16).padStart(2, "0")).join("")`
on bytes (< 256). -/
def uint8ArrayToHex (arr : List Nat) : List Char :=
  arr.flatMap fun b => [hexDigitChar (b / 16 % 16), hexDigitChar (b % 16)]

/-- `nodeIdToHex(nodeId)`. -/
def nodeIdToHex (nodeId : List Nat) : List Char := uint8ArrayToHex nodeId

/-- `coords.join("/")`: the canonical chunk-coordinate key. -/
def coordsKey (coords : List Nat) : List Char :=
  List.intercalate ['/'] (coords.map natDigits)

/-- JS `Map.prototype.set`: replace in place, else append (insertion order). -/
def mapSet {v : Type} (m : List (List Char × v)) (k : List Char) (x : v) :
    List (List Char × v) :=
  if m.any (fun p => p.1 == k) then
    m.map fun p => if p.1 == k then (k, x) else p
  else m ++ [(k, x)]

/-- JS `Map.prototype.get`. -/
def mapGet {v : Type} (m : List (List Char × v)) (k : List Char) : Option v :=
  (m.find? fun p => p.1 == k).map (·.2)

/-- An `ArrayManifest` table: node id plus its `ChunkRef` vector. -/
structure ArrayManifestTable where
  nodeId : List Nat
  refs : List ChunkRefTable

/-- The per-array chunk map built by the `decodeManifest` refs loop:
records whose `parseChunkRef` is `null` are skipped without error. -/
def buildChunkMap (refs : List ChunkRefTable) : List (List Char × ChunkPayload) :=
  refs.foldl
    (fun m r =>
      match parseChunkRef r with
      | some cp => mapSet m (coordsKey cp.1) cp.2
      | none => m)
    []

/-- A decoded `Manifest`: id plus `map<nodeIdHex, map<coordKey, payload>>`. -/
structure Manifest where
  id : List Char
  chunks : List (List Char × List (List Char × ChunkPayload))

/-- The array loop of `decodeManifest`, from the decoded tables. -/
def decodeManifestArrays (arrays : List ArrayManifestTable) :
    List (List Char × List (List Char × ChunkPayload)) :=
  arrays.foldl
    (fun chunks a => mapSet chunks (nodeIdToHex a.nodeId) (buildChunkMap a.refs))
    []

/-- `findChunk(manifest, nodeId, chunkCoords)`. -/
def findChunk (manifest : Manifest) (nodeId : List Nat)
    (chunkCoords : List Nat) : Option ChunkPayload :=
  match mapGet manifest.chunks (nodeIdToHex nodeId) with
  | none => none
  | some nodeChunks => mapGet nodeChunks (coordsKey chunkCoords)

/-- `isChunkInExtent(chunkCoords, extents)`: arities equal and every
coordinate inside its inclusive `(start, end)` range. -/
def isChunkInExtent (chunkCoords : List Nat)
    (extents : List (Nat × Nat)) : Bool :=
  chunkCoords.length == extents.length &&
    (chunkCoords.zip extents).all fun p => p.2.1 ≤ p.1 && p.1 ≤ p.2.2

/-! ## Envelope parsing (`src/core/decode.ts`) -/

/-- The 12 magic bytes `"ICE" + f0 9f a7 8a + "CHUNK"`. -/
def MAGIC : List Nat :=
  [0x49, 0x43, 0x45, 0xf0, 0x9f, 0xa7, 0x8a, 0x43, 0x48, 0x55, 0x4e, 0x4b]

/-- The FlatBuffers file identifier `"Ichk"` as bytes. -/
def ICECHUNK_FILE_ID : List Nat := [0x49, 0x63, 0x68, 0x6b]

/-- The throw sites of the envelope decoder. -/
inductive EnvelopeError where
  | tooShort (len : Nat)
  | badMagic
  | badSpecVersion (v : Nat)
  | unknownCompression (c : Nat)
  | badFileId
deriving DecidableEq

/-- ASCII whitespace, for the version-string `trim()`. -/
def isWhitespaceByte (b : Nat) : Bool :=
  b == 32 || b == 9 || b == 10 || b == 11 || b == 12 || b == 13

/-- `String.prototype.trim` at the byte level (the version string is
space-padded ASCII). -/
def trimBytes (l : List Nat) : List Nat :=
  ((l.dropWhile isWhitespaceByte).reverse.dropWhile isWhitespaceByte).reverse

/-- The decoded header fields. -/
structure EnvelopeHeader where
  versionString : List Nat
  specVersion : Nat
  fileType : Nat
  compression : Nat
deriving DecidableEq

/-- `parseEnvelopeHeader(data)`: the length guard runs before any field is
read, then magic, version string, spec version, file type and compression. -/
def parseEnvelopeHeader (data : List Nat) : Except EnvelopeError EnvelopeHeader :=
  if data.length < 39 then .error (.tooShort data.length)
  else if data.take 12 ≠ MAGIC then .error .badMagic
  else
    let specVersion := data.getD 36 0
    if specVersion > 1 then .error (.badSpecVersion specVersion)
    else .ok ⟨trimBytes ((data.drop 12).take 24), specVersion,
      data.getD 37 0, data.getD 38 0⟩

/-- The `decompress` dispatch; zstd itself is an external collaborator and
is passed in as a function. -/
def decompressModel (zstd : List Nat → Except EnvelopeError (List Nat))
    (data : List Nat) (compression : Nat) : Except EnvelopeError (List Nat) :=
  match compression with
  | 0 => .ok data
  | 1 => zstd data
  | c => .error (.unknownCompression c)

/-- `decodeEnvelope(data)`: header, decompression, then the `"Ichk"` check
at bytes 4..8 of the decompressed payload. -/
def decodeEnvelope (zstd : List Nat → Except EnvelopeError (List Nat))
    (data : List Nat) : Except EnvelopeError (EnvelopeHeader × List Nat) :=
  match parseEnvelopeHeader data with
  | .error e => .error e
  | .ok header =>
      match decompressModel zstd (data.drop 39) header.compression with
      | .error e => .error e
      | .ok decompressed =>
          if (decompressed.drop 4).take 4 ≠ ICECHUNK_FILE_ID then
            .error .badFileId
          else .ok (header, decompressed)

/-! ## The store chunk path (`store.ts`: `getChunk` and helpers) -/

/-- `findManifestForChunk(manifests, coords)`: first ref whose extents cover
the coordinates. -/
def findManifestForChunk (manifests : List ManifestRef) (coords : List Nat) :
    Option ManifestRef :=
  manifests.find? fun r => isChunkInExtent coords r.extents

/-- The pure content of `IcechunkStore.getChunk`: locate the node, require
an array, select a covering manifest, and look the coordinate key up in the
decoded manifest. The cache-or-fetch step is abstracted as `manifestLookup`;
serving payload bytes is I/O beyond the decoded payload. -/
def getChunkPayload (snap : Snapshot)
    (manifestLookup : List Char → Manifest)
    (arrayPath : List Char) (coords : List Nat) : Option ChunkPayload :=
  match findNode snap arrayPath with
  | none => none
  | some node =>
      match node.nodeData with
      | .group => none
      | .array _ manifests =>
          match findManifestForChunk manifests coords with
          | none => none
          | some manifestRef =>
              findChunk (manifestLookup manifestRef.id) node.id coords

/-- The `userData` handling of `parseNodeSnapshot`: non-empty `userData` is
passed through `JSON.parse` (abstracted as its result, `none` = the parse
threw) with a `catch` that keeps the empty attribute map. -/
def nodeUserAttributes (userData : List Nat) (parsed : Option Json) : Json :=
  if userData.length > 0 then
    match parsed with
    | some v => v
    | none => Json.obj []
  else Json.obj []




/-! ## Store views and `resolve` (`store.ts`) -/

/-- `replace(/\\/+/g, "/")`: collapse every run of slashes to one. -/
def collapseSlashes : List Char → List Char
  | [] => []
  | c :: r =>
      if c = '/' then '/' :: collapseSlashes (r.dropWhile fun x => x = '/')
      else c :: collapseSlashes r
termination_by l => l.length
decreasing_by
  · have := (List.dropWhile_sublist (l := r) fun x => x = '/').length_le
    simp only [List.length_cons]
    omega
  · simp only [List.length_cons]
    omega

/-- `replace(/^\\/|\\/$/g, "")`: the anchored alternation removes exactly one
leading and one trailing slash, which equals stripping them in sequence. -/
def stripSlashEnds (l : List Char) : List Char :=
  dropOneTrailingSlash (dropOneLeadingSlash l)

/-- A store view: `rootUrl` and `basePath` plus the shared snapshot handle;
the backend and the manifest LRU are external collaborators, modelled as
opaque reference tokens so that sharing is expressible. -/
structure IcechunkStore where
  rootUrl : List Char
  backend : Nat
  manifestCache : Nat
  snapshot : Option Snapshot
  basePath : List Char

/-- `resolve(path)`: a new view sharing the snapshot, backend and manifest
cache; `basePath` is joined and cleaned exactly as in the source — note the
run-collapsing `replace` runs only in the non-empty-base branch. -/
def resolveStore (s : IcechunkStore) (path : List Char) : IcechunkStore :=
  { rootUrl := s.rootUrl
    backend := s.backend
    manifestCache := s.manifestCache
    snapshot := s.snapshot
    basePath :=
      if s.basePath ≠ [] then
        stripSlashEnds (collapseSlashes (s.basePath ++ '/' :: path))
      else stripSlashEnds path }

/-- No two consecutive slashes (claim C8's run condition). -/
def noDoubleSlash : List Char → Bool
  | [] => true
  | [_] => true
  | a :: b :: r => !(a = '/' && b = '/') && noDoubleSlash (b :: r)

/-- Claim C8's canonicity: runs of `/` collapsed and no `/` at either end. -/
def isCanonicalPath (l : List Char) : Bool :=
  noDoubleSlash l && l.head? != some '/' && l.getLast? != some '/'





/-! ## The Zarr key parser (`store.ts`: `parseKey`) and JS `Number()`

`parseKey` maps coordinate tokens through JavaScript `Number()` and throws
iff some token converts to `NaN`. `Number()` on strings follows the
ECMAScript `StringNumericLiteral` grammar, modelled here exactly for the
NaN-or-not outcome; finite values are idealised as exact rationals (the
claims only exercise integer tokens, where IEEE doubles are exact). -/

/-- A JavaScript number as `Number(string)` can produce it. -/
inductive JsNum where
  | nan
  | inf (neg : Bool)
  | val (q : ℚ)
deriving DecidableEq

/-- ECMAScript `StrWhiteSpaceChar` (WhiteSpace ∪ LineTerminator). -/
def jsWhitespaceChar (c : Char) : Bool :=
  c.toNat ∈ [9, 10, 11, 12, 13, 32, 160, 5760, 8192, 8193, 8194, 8195, 8196,
    8197, 8198, 8199, 8200, 8201, 8202, 8232, 8233, 8239, 8287, 12288, 65279]

/-- The whitespace trim `Number()` applies at both ends. -/
def jsTrim (s : List Char) : List Char :=
  ((s.dropWhile jsWhitespaceChar).reverse.dropWhile jsWhitespaceChar).reverse

/-- Decimal digit. -/
def isDigitC (c : Char) : Bool := 48 ≤ c.toNat && c.toNat ≤ 57

/-- Value of a decimal digit. -/
def digitVal (c : Char) : Nat := c.toNat - 48

/-- Value of a decimal digit string, MSB first. -/
def digitsVal (l : List Char) : Nat :=
  l.foldl (fun acc c => acc * 10 + digitVal c) 0

/-- Hex digit (both cases). -/
def isHexDigitC (c : Char) : Bool :=
  isDigitC c || (65 ≤ c.toNat && c.toNat ≤ 70) || (97 ≤ c.toNat && c.toNat ≤ 102)

/-- Value of a hex digit. -/
def hexDigitVal (c : Char) : Nat :=
  if isDigitC c then c.toNat - 48
  else if c.toNat ≤ 70 then c.toNat - 55
  else c.toNat - 87

/-- Octal digit. -/
def isOctDigitC (c : Char) : Bool := 48 ≤ c.toNat && c.toNat ≤ 55

/-- Binary digit. -/
def isBinDigitC (c : Char) : Bool := c.toNat == 48 || c.toNat == 49

/-- Value of a digit string in a radix. -/
def radixVal (radix : Nat) (dv : Char → Nat) (l : List Char) : Nat :=
  l.foldl (fun acc c => acc * radix + dv c) 0

/-- `ExponentPart` after the `e`/`E`: optional sign then one-or-more
decimal digits, consuming the whole remainder. -/
def parseExponent (r : List Char) : Option Int :=
  match r with
  | '+' :: d => if d ≠ [] ∧ d.all isDigitC then some (digitsVal d) else none
  | '-' :: d => if d ≠ [] ∧ d.all isDigitC then some (-(digitsVal d : Int)) else none
  | d => if d ≠ [] ∧ d.all isDigitC then some (digitsVal d) else none

/-- `StrUnsignedDecimalLiteral` without the `Infinity` form:
`digits [. digits] [exp]` or `. digits [exp]`; `none` is NaN. -/
def parseUnsignedDecJs (t : List Char) : Option ℚ :=
  let intPart := t.takeWhile isDigitC
  let rest := t.dropWhile isDigitC
  match rest with
  | [] => if intPart = [] then none else some (digitsVal intPart : ℚ)
  | c :: r2 =>
      if c = '.' then
        let frac := r2.takeWhile isDigitC
        let r3 := r2.dropWhile isDigitC
        if intPart = [] ∧ frac = [] then none
        else
          let mant : ℚ := (digitsVal intPart : ℚ) +
            (digitsVal frac : ℚ) / (10 : ℚ) ^ frac.length
          match r3 with
          | [] => some mant
          | e :: r4 =>
              if e = 'e' ∨ e = 'E' then
                (parseExponent r4).map fun ex => mant * (10 : ℚ) ^ ex
              else none
      else if c = 'e' ∨ c = 'E' then
        if intPart = [] then none
        else
          (parseExponent r2).map fun ex =>
            (digitsVal intPart : ℚ) * (10 : ℚ) ^ ex
      else none

/-- A signed tail (after `+`/`-`): only `Infinity` or a decimal literal. -/
def parseSignedTail (r : List Char) (neg : Bool) : JsNum :=
  if r = "Infinity".data then .inf neg
  else
    match parseUnsignedDecJs r with
    | some q => .val (if neg then -q else q)
    | none => .nan

/-- An unsigned numeric literal: `Infinity`, `0x`/`0o`/`0b` radix forms, or
a decimal literal. -/
def parseUnsignedAllowNonDec (t : List Char) : JsNum :=
  if t = "Infinity".data then .inf false
  else
    match t with
    | c1 :: c2 :: r =>
        if c1 = '0' ∧ (c2 = 'x' ∨ c2 = 'X') then
          if r ≠ [] ∧ r.all isHexDigitC then .val (radixVal 16 hexDigitVal r)
          else .nan
        else if c1 = '0' ∧ (c2 = 'o' ∨ c2 = 'O') then
          if r ≠ [] ∧ r.all isOctDigitC then .val (radixVal 8 digitVal r)
          else .nan
        else if c1 = '0' ∧ (c2 = 'b' ∨ c2 = 'B') then
          if r ≠ [] ∧ r.all isBinDigitC then .val (radixVal 2 digitVal r)
          else .nan
        else
          match parseUnsignedDecJs (c1 :: c2 :: r) with
          | some q => .val q
          | none => .nan
    | _ =>
        match parseUnsignedDecJs t with
        | some q => .val q
        | none => .nan

/-- `Number(string)`: trim, empty means `0`, optional sign (only for the
decimal/`Infinity` forms), otherwise the unsigned grammar. -/
def jsStringToNumber (s : List Char) : JsNum :=
  match jsTrim s with
  | [] => .val 0
  | c :: r =>
      if c = '+' then parseSignedTail r false
      else if c = '-' then parseSignedTail r true
      else parseUnsignedAllowNonDec (c :: r)

/-- `str.split("/")` (JS semantics: `"" → [""]`, empty runs kept). -/
def splitOnSlash : List Char → List (List Char)
  | [] => [[]]
  | c :: r =>
      if c = '/' then [] :: splitOnSlash r
      else
        match splitOnSlash r with
        | t :: ts => (c :: t) :: ts
        | [] => [[c]]

/-- Does `"/c/"` occur at index `i` with at least one character after it?
(The capture `(.+)` of the chunk regex needs a nonempty tail.) -/
def isCSplitAt (key : List Char) (i : Nat) : Bool :=
  ((key.drop i).take 3 == ['/', 'c', '/']) && decide (i + 3 < key.length)

/-- An ECMAScript LineTerminator, which `.` does not match. -/
def jsLineTerminator (c : Char) : Bool := c.toNat ∈ [10, 13, 8232, 8233]

/-- The greedy match of `/^(.*)\/c\/(.+)$/`: no match at all when the key
contains a line terminator (every character is consumed by `.*`, the
literals, or `.+`), otherwise the split at the last viable `"/c/"`
occurrence. -/
def chunkMatch (key : List Char) : Option (List Char × List Char) :=
  if key.any jsLineTerminator then none
  else
    match ((List.range key.length).filter fun i => isCSplitAt key i).getLast? with
    | some i => some (key.take i, key.drop (i + 3))
    | none => none

/-- `key.endsWith(suffix)`. -/
def listEndsWith (l suffix : List Char) : Bool :=
  l.drop (l.length - suffix.length) == suffix

/-- The parsed key structure of the store. -/
inductive ParsedKey where
  | metadata (path : List Char)
  | chunk (path : List Char) (chunkCoords : List JsNum)
deriving DecidableEq

/-- `IcechunkStore.parseKey(key)`: `zarr.json` keys are metadata, then the
chunk regex with `Number()`-converted coordinates (`some(isNaN)` throws),
and anything else is metadata. -/
def parseKey (key : List Char) : Except (List Char) ParsedKey :=
  if key = "zarr.json".data ∨ listEndsWith key "/zarr.json".data then
    .ok (.metadata (dropOneTrailingSlash
      (if key = "zarr.json".data then [] else key.take (key.length - 10))))
  else
    match chunkMatch key with
    | some ps =>
        let chunkCoords := (splitOnSlash ps.2).map jsStringToNumber
        if chunkCoords.any (· == JsNum.nan) then
          .error "Invalid chunk coordinates".data
        else .ok (.chunk ps.1 chunkCoords)
    | none => .ok (.metadata key)

/-- A numeric coordinate token in the claim's sense: a nonempty string of
decimal digits (chunk coordinates are u32 numerals in the data model). -/
def specNumericToken (t : List Char) : Bool := !t.isEmpty && t.all isDigitC

/-- `Array.prototype.join("/")`. -/
def joinSlash : List (List Char) → List Char
  | [] => []
  | [t] => t
  | t :: t2 :: rest => t ++ '/' :: joinSlash (t2 :: rest)

instance {ε α : Type} [DecidableEq ε] [DecidableEq α] :
    DecidableEq (Except ε α) := fun x y =>
  match x, y with
  | .ok a, .ok b =>
      if h : a = b then .isTrue (h ▸ rfl)
      else .isFalse fun hc => h (Except.ok.inj hc)
  | .error a, .error b =>
      if h : a = b then .isTrue (h ▸ rfl)
      else .isFalse fun hc => h (Except.error.inj hc)
  | .ok _, .error _ => .isFalse fun hc => Except.noConfusion hc
  | .error _, .ok _ => .isFalse fun hc => Except.noConfusion hc


end Icechunk

namespace Icechunk

/-! ## Helper lemmas for the Base32 round-trip -/

theorem decodeMap_alphabet_getD (n : Nat) (h : n < 32) :
    DECODE_MAP (ALPHABET[n]?.getD '0') = some n := by
  interval_cases n <;> decide

theorem decodeMap_alphabet_mod (x : Nat) :
    DECODE_MAP (ALPHABET[x % 32]?.getD '0') = some (x % 32) :=
  decodeMap_alphabet_getD (x % 32) (Nat.mod_lt _ (by norm_num))

theorem mod32_flatten_byte (a b : Nat) :
    (a % 4294967296 * 256 + b) % 4294967296 = (a * 256 + b) % 4294967296 := by omega

theorem mod32_flatten_sym (a d : Nat) :
    (a % 4294967296 * 32 + d) % 4294967296 = (a * 32 + d) % 4294967296 := by omega

theorem slice32_d0 (x : Nat) : x % 4294967296 % 32 = x % 32 := by omega
theorem slice32_d1 (x : Nat) : x % 4294967296 / 2 % 32 = x / 2 % 32 := by omega
theorem slice32_d2 (x : Nat) : x % 4294967296 / 4 % 32 = x / 4 % 32 := by omega
theorem slice32_d3 (x : Nat) : x % 4294967296 / 8 % 32 = x / 8 % 32 := by omega
theorem slice32_d4 (x : Nat) : x % 4294967296 / 16 % 32 = x / 16 % 32 := by omega
theorem slice32_d5 (x : Nat) : x % 4294967296 / 32 % 32 = x / 32 % 32 := by omega
theorem slice32_d6 (x : Nat) : x % 4294967296 / 64 % 32 = x / 64 % 32 := by omega
theorem slice32_d7 (x : Nat) : x % 4294967296 / 128 % 32 = x / 128 % 32 := by omega

theorem padchar_flatten (x : Nat) :
    x % 4294967296 * 16 % 32 = x * 16 % 32 := by omega

theorem slice256_d0 (x : Nat) : x % 4294967296 % 256 = x % 256 := by omega
theorem slice256_d1 (x : Nat) : x % 4294967296 / 2 % 256 = x / 2 % 256 := by omega
theorem slice256_d2 (x : Nat) : x % 4294967296 / 4 % 256 = x / 4 % 256 := by omega
theorem slice256_d3 (x : Nat) : x % 4294967296 / 8 % 256 = x / 8 % 256 := by omega
theorem slice256_d4 (x : Nat) : x % 4294967296 / 16 % 256 = x / 16 % 256 := by omega

theorem encodeLoop_step0 (b : Nat) (rest : List Nat) (value : Nat) :
    encodeLoop (b :: rest) value 0 =
      ALPHABET[(value * 256 + b) % 4294967296 / 8 % 32]?.getD '0' ::
        encodeLoop rest ((value * 256 + b) % 4294967296) 3 := by
  simp [encodeLoop, encodeEmit]

theorem encodeLoop_step3 (b : Nat) (rest : List Nat) (value : Nat) :
    encodeLoop (b :: rest) value 3 =
      ALPHABET[(value * 256 + b) % 4294967296 / 64 % 32]?.getD '0' ::
        ALPHABET[(value * 256 + b) % 4294967296 / 2 % 32]?.getD '0' ::
          encodeLoop rest ((value * 256 + b) % 4294967296) 1 := by
  simp [encodeLoop, encodeEmit]

theorem encodeLoop_step1 (b : Nat) (rest : List Nat) (value : Nat) :
    encodeLoop (b :: rest) value 1 =
      ALPHABET[(value * 256 + b) % 4294967296 / 16 % 32]?.getD '0' ::
        encodeLoop rest ((value * 256 + b) % 4294967296) 4 := by
  simp [encodeLoop, encodeEmit]

theorem encodeLoop_step4 (b : Nat) (rest : List Nat) (value : Nat) :
    encodeLoop (b :: rest) value 4 =
      ALPHABET[(value * 256 + b) % 4294967296 / 128 % 32]?.getD '0' ::
        ALPHABET[(value * 256 + b) % 4294967296 / 4 % 32]?.getD '0' ::
          encodeLoop rest ((value * 256 + b) % 4294967296) 2 := by
  simp [encodeLoop, encodeEmit]

theorem encodeLoop_step2 (b : Nat) (rest : List Nat) (value : Nat) :
    encodeLoop (b :: rest) value 2 =
      ALPHABET[(value * 256 + b) % 4294967296 / 32 % 32]?.getD '0' ::
        ALPHABET[(value * 256 + b) % 4294967296 % 32]?.getD '0' ::
          encodeLoop rest ((value * 256 + b) % 4294967296) 0 := by
  simp [encodeLoop, encodeEmit]

theorem encodeLoop_final1 (value : Nat) :
    encodeLoop [] value 1 = [ALPHABET[value * 16 % 32]?.getD '0'] := by
  simp [encodeLoop]

theorem decodeLoop_nil (value bits : Nat) : decodeLoop [] value bits = .ok [] := rfl

theorem decodeLoop_alpha0 (x : Nat) (rest : List Char) (value : Nat) :
    decodeLoop (ALPHABET[x % 32]?.getD '0' :: rest) value 0 =
      decodeLoop rest ((value * 32 + x % 32) % 4294967296) 5 := by
  simp [decodeLoop, decodeMap_alphabet_mod]

theorem decodeLoop_alpha5 (x : Nat) (rest : List Char) (value : Nat) :
    decodeLoop (ALPHABET[x % 32]?.getD '0' :: rest) value 5 =
      (decodeLoop rest ((value * 32 + x % 32) % 4294967296) 2).map
        (fun out => (value * 32 + x % 32) % 4294967296 / 4 % 256 :: out) := by
  simp [decodeLoop, decodeMap_alphabet_mod]

theorem decodeLoop_alpha2 (x : Nat) (rest : List Char) (value : Nat) :
    decodeLoop (ALPHABET[x % 32]?.getD '0' :: rest) value 2 =
      decodeLoop rest ((value * 32 + x % 32) % 4294967296) 7 := by
  simp [decodeLoop, decodeMap_alphabet_mod]

theorem decodeLoop_alpha7 (x : Nat) (rest : List Char) (value : Nat) :
    decodeLoop (ALPHABET[x % 32]?.getD '0' :: rest) value 7 =
      (decodeLoop rest ((value * 32 + x % 32) % 4294967296) 4).map
        (fun out => (value * 32 + x % 32) % 4294967296 / 16 % 256 :: out) := by
  simp [decodeLoop, decodeMap_alphabet_mod]

theorem decodeLoop_alpha4 (x : Nat) (rest : List Char) (value : Nat) :
    decodeLoop (ALPHABET[x % 32]?.getD '0' :: rest) value 4 =
      (decodeLoop rest ((value * 32 + x % 32) % 4294967296) 1).map
        (fun out => (value * 32 + x % 32) % 4294967296 / 2 % 256 :: out) := by
  simp [decodeLoop, decodeMap_alphabet_mod]

theorem decodeLoop_alpha1 (x : Nat) (rest : List Char) (value : Nat) :
    decodeLoop (ALPHABET[x % 32]?.getD '0' :: rest) value 1 =
      decodeLoop rest ((value * 32 + x % 32) % 4294967296) 6 := by
  simp [decodeLoop, decodeMap_alphabet_mod]

theorem decodeLoop_alpha6 (x : Nat) (rest : List Char) (value : Nat) :
    decodeLoop (ALPHABET[x % 32]?.getD '0' :: rest) value 6 =
      (decodeLoop rest ((value * 32 + x % 32) % 4294967296) 3).map
        (fun out => (value * 32 + x % 32) % 4294967296 / 8 % 256 :: out) := by
  simp [decodeLoop, decodeMap_alphabet_mod]

theorem decodeLoop_alpha3 (x : Nat) (rest : List Char) (value : Nat) :
    decodeLoop (ALPHABET[x % 32]?.getD '0' :: rest) value 3 =
      (decodeLoop rest ((value * 32 + x % 32) % 4294967296) 0).map
        (fun out => (value * 32 + x % 32) % 4294967296 % 256 :: out) := by
  simp [decodeLoop, decodeMap_alphabet_mod]

theorem b11_shrink (V c d e : Nat) :
    (((V * 32 + c) * 32 + d) * 32 + e) / 16 % 256 =
      (((c % 4) * 32 + d) * 32 + e) / 16 % 256 := by omega

theorem except_map_ok {ε α β : Type} (f : α → β) (a : α) :
    (Except.map f (Except.ok a) : Except ε β) = .ok (f a) := rfl

set_option maxRecDepth 10000 in
set_option maxHeartbeats 1000000 in
theorem c3_crockford_roundtrip (b : List Nat)
    (hlen : b.length = 12) (hbytes : ∀ x ∈ b, x < 256) :
    crockfordBase32Decode (crockfordBase32Encode b) = .ok b := by
  match b, hlen with
  | [b0, b1, b2, b3, b4, b5, b6, b7, b8, b9, b10, b11], _ =>
    have h0 := hbytes b0 (by simp); have h1 := hbytes b1 (by simp)
    have h2 := hbytes b2 (by simp); have h3 := hbytes b3 (by simp)
    have h4 := hbytes b4 (by simp); have h5 := hbytes b5 (by simp)
    have h6 := hbytes b6 (by simp); have h7 := hbytes b7 (by simp)
    have h8 := hbytes b8 (by simp); have h9 := hbytes b9 (by simp)
    have h10 := hbytes b10 (by simp); have h11 := hbytes b11 (by simp)
    simp only [crockfordBase32Encode, crockfordBase32Decode,
      encodeLoop_step0, encodeLoop_step3, encodeLoop_step1, encodeLoop_step4,
      encodeLoop_step2, encodeLoop_final1, Nat.zero_mul, Nat.zero_add, padchar_flatten,
      mod32_flatten_byte, slice32_d0, slice32_d1, slice32_d2, slice32_d3,
      slice32_d4, slice32_d5, slice32_d6, slice32_d7, List.cons_append,
      List.nil_append, List.singleton_append]
    simp only [decodeLoop_alpha0, decodeLoop_alpha5, decodeLoop_alpha2,
      decodeLoop_alpha7, decodeLoop_alpha4, decodeLoop_alpha1, decodeLoop_alpha6,
      decodeLoop_alpha3, decodeLoop_nil, mod32_flatten_sym, slice256_d0,
      slice256_d1, slice256_d2, slice256_d3, slice256_d4, except_map_ok,
      Except.ok.injEq, List.cons.injEq, and_true]
    refine ⟨by omega, by omega, by omega, by omega, by omega, by omega, by omega,
      by omega, by omega, by omega, by omega, ?_⟩
    rw [b11_shrink]
    omega

/-- Witness for C3: the round-trip theorem applied at the concrete byte vector
`[0, 1, ..., 11]`, discharging both hypotheses. -/
theorem c3_crockford_roundtrip_witness :
    ([0, 1, 2, 3, 4, 5, 6, 7, 8, 9, 10, 11] : List Nat).length = 12 ∧
      crockfordBase32Decode
          (crockfordBase32Encode [0, 1, 2, 3, 4, 5, 6, 7, 8, 9, 10, 11]) =
        .ok [0, 1, 2, 3, 4, 5, 6, 7, 8, 9, 10, 11] :=
  ⟨rfl, c3_crockford_roundtrip _ rfl (by decide)⟩


/-! ## Theorems: C2 (findNode returns the normalised path) -/

/-- `compareChars` returns `.eq` exactly on equal strings. -/
theorem compareChars_eq_iff : ∀ x y : List Char, compareChars x y = .eq ↔ x = y := by
  intro x
  induction x with
  | nil => intro y; cases y <;> simp [compareChars]
  | cons a as ih =>
      intro y
      cases y with
      | nil => simp [compareChars]
      | cons b bs =>
          constructor
          · intro h
            simp only [compareChars] at h
            by_cases h1 : a < b
            · rw [if_pos h1] at h; cases h
            · by_cases h2 : b < a
              · rw [if_neg h1, if_pos h2] at h; cases h
              · rw [if_neg h1, if_neg h2] at h
                have hab : a = b := le_antisymm (not_lt.mp h2) (not_lt.mp h1)
                rw [hab, (ih bs).mp h]
          · intro h
            injection h with hab hrest
            subst hab
            subst hrest
            simp only [compareChars]
            rw [if_neg (lt_irrefl a), if_neg (lt_irrefl a)]
            exact (ih as).mpr rfl

/-- Whenever the binary-search loop returns a node, the collator compared
that node's path equal to the target. -/
theorem findNodeAuxWith_path (collate : List Char → List Char → Ordering)
    (nodes : List NodeSnapshot) (t : List Char) :
    ∀ (fuel : Nat) (low high : Int), (high + 1 - low).toNat ≤ fuel →
      ∀ node, findNodeAuxWith collate nodes t low high = some node →
        collate node.path t = .eq := by
  intro fuel
  induction fuel with
  | zero =>
      intro low high hle node h
      rw [findNodeAuxWith] at h
      split at h
      · omega
      · exact absurd h (by simp)
  | succ n ih =>
      intro low high hle node h
      rw [findNodeAuxWith] at h
      split at h
      case isFalse => exact absurd h (by simp)
      case isTrue hlh =>
        split at h
        · exact absurd h (by simp)
        · rename_i node' hget
          split at h
          · rename_i heq
            cases h
            exact heq
          · exact ih _ _ (by omega) node h
          · exact ih _ _ (by omega) node h

/-- C2, counterexample: `findNode` compares with `localeCompare`, which
ECMA-262 obliges to treat canonically equivalent Strings as identical. At
the conforming collator `collateNFD`, on the trivially sorted one-node
snapshot whose node path is ⟨U+00E9⟩ and the lookup path ⟨U+0065, U+0301⟩
(canonically equivalent to it, but distinct), the binary search returns
that node although its path is not `normalizePath p` — so the claim that
the returned node's path always equals `normalizePath p` fails on the
program. -/
theorem c2_findNode_counterexample :
    (([⟨[0, 0, 0, 0, 0, 0, 0, 0], [Char.ofNat 233], Json.obj [],
          NodeData.group⟩] : List NodeSnapshot).Pairwise
        fun a b => compareChars a.path b.path = Ordering.lt) ∧
      findNodeWith collateNFD
          ⟨"s".data, none, ([] : List Char),
            [⟨[0, 0, 0, 0, 0, 0, 0, 0], [Char.ofNat 233], Json.obj [],
              NodeData.group⟩]⟩
          [Char.ofNat 101, Char.ofNat 769] =
        some ⟨[0, 0, 0, 0, 0, 0, 0, 0], [Char.ofNat 233], Json.obj [],
          NodeData.group⟩ ∧
      ([Char.ofNat 233] : List Char) ≠
        normalizePath [Char.ofNat 101, Char.ofNat 769] := by
  refine ⟨by simp, ?_, by decide⟩
  rw [findNodeWith, findNodeAuxWith]
  norm_num [normalizePath, dropOneLeadingSlash, dropOneTrailingSlash,
    collateNFD, canonDecomposeAll, canonDecomposeFragment, compareChars]

/-- C2 (amended): for every collator (the host's implementation-defined
`localeCompare`), every snapshot whose `nodes` vector is sorted strictly
ascending by path and every path `p`: whenever `findNode` returns a node,
the collator compared that node's path equal to `normalizePath p`; the
path literally equals `normalizePath p` whenever the collator returns
`.eq` only on identical strings — which ECMA-262 does not guarantee for
`localeCompare` (canonically equivalent distinct strings must compare
equal). The lookup is the binary search `findNodeAuxWith` over the `nodes`
vector. -/
theorem c2_findNode_path_amended (collate : List Char → List Char → Ordering)
    (snap : Snapshot) (p : List Char)
    (_hsorted : snap.nodes.Pairwise fun a b => compareChars a.path b.path = .lt)
    (node : NodeSnapshot) (h : findNodeWith collate snap p = some node) :
    collate node.path (normalizePath p) = .eq ∧
      ((∀ x y : List Char, collate x y = .eq → x = y) →
        node.path = normalizePath p) := by
  have heq : collate node.path (normalizePath p) = .eq :=
    findNodeAuxWith_path collate snap.nodes (normalizePath p)
      ((snap.nodes.length - 1 : Int) + 1 - 0).toNat 0 (snap.nodes.length - 1)
      le_rfl node h
  exact ⟨heq, fun hsep => hsep _ _ heq⟩

/-- Witness for the amended C2 at the code-point collator, a concrete
one-node snapshot and the path `"a"`. -/
theorem c2_findNode_path_amended_witness :
    compareChars "a".data (normalizePath "a".data) = Ordering.eq ∧
      ((∀ x y : List Char, compareChars x y = Ordering.eq → x = y) →
        "a".data = normalizePath "a".data) :=
  c2_findNode_path_amended compareChars
    ⟨"s".data, none, ([] : List Char),
      [⟨[0, 0, 0, 0, 0, 0, 0, 0], "a".data, Json.obj [], NodeData.group⟩]⟩
    "a".data (by simp)
    ⟨[0, 0, 0, 0, 0, 0, 0, 0], "a".data, Json.obj [], NodeData.group⟩
    (by
      rw [findNodeWith, findNodeAuxWith]
      norm_num [normalizePath, dropOneLeadingSlash, dropOneTrailingSlash,
        compareChars])

/-! ## Theorems: C4 (ref JSON parsing) -/

/-- Lists of length other than one always throw in `decodeRefEntries`. -/
theorem decodeRefEntries_len_ne_one (l : List (List Char × Json))
    (h : l.length ≠ 1) :
    decodeRefEntries l =
      .error "Expected object with only a snapshot property".data := by
  match l with
  | [] => rfl
  | [_] => simp at h
  | _ :: _ :: _ => rfl

/-- C4: `decodeRef` succeeds with snapshot id `s` exactly when the input is
a JSON object whose sole entry is the key `"snapshot"` holding the string
`s`, with `s` matching the snapshot-id pattern; every other input (extra
property, missing or non-string value, malformed id, non-object) throws. -/
theorem c4_decodeRef_ok_iff (j : Json) (s : List Char) :
    decodeRef j = .ok s ↔
      j = .obj [("snapshot".data, .str s)] ∧ isValidSnapshotId s = true := by
  cases j with
  | null => simp [decodeRef]
  | bool b => simp [decodeRef]
  | num n => simp [decodeRef]
  | str t => simp [decodeRef]
  | arr items =>
      simp only [decodeRef]
      match items with
      | [] => simp [decodeRefEntries]
      | [x] =>
          simp only [List.enum, List.enumFrom, List.map]
          have hne : natDigits 0 ≠ "snapshot".data := by decide
          simp [decodeRefEntries, hne]
      | x :: y :: rest =>
          rw [decodeRefEntries_len_ne_one _ (by simp [List.enum_length])]
          simp
  | obj kvs =>
      match kvs with
      | [] => simp [decodeRef, decodeRefEntries]
      | [(k, v)] =>
          constructor
          · intro h
            simp only [decodeRef, decodeRefEntries] at h
            by_cases hk : k = "snapshot".data
            · rw [if_pos hk] at h
              subst hk
              cases v with
              | str t =>
                  dsimp only at h
                  by_cases hv : isValidSnapshotId t
                  · rw [if_pos hv] at h
                    injection h with hts
                    subst hts
                    exact ⟨rfl, hv⟩
                  · rw [if_neg hv] at h; cases h
              | null => simp at h
              | bool b => simp at h
              | num n => simp at h
              | arr l => simp at h
              | obj l => simp at h
            · rw [if_neg hk] at h; cases h
          · rintro ⟨hj, hvalid⟩
            simp only [Json.obj.injEq, List.cons.injEq, Prod.mk.injEq,
              and_true] at hj
            obtain ⟨hk, hv⟩ := hj
            subst hk
            subst hv
            simp [decodeRef, decodeRefEntries, hvalid]
      | a :: b :: rest =>
          rw [decodeRef, decodeRefEntries_len_ne_one _ (by simp)]
          simp

/-! ## Theorems: C5 (zarr.json emission for array nodes) -/

set_option maxRecDepth 4000 in
/-- C5 counterexample: an array node with `userAttributes.zarr_format = 1`.
The claim says every `zarr_format` other than 2 or 3 synthesises a v3
document; the code's truthiness test emits the attributes verbatim instead. -/
theorem c5_encodeZarrJson_counterexample :
    encodeZarrJson
        ⟨[0, 0, 0, 0, 0, 0, 0, 0], "a".data,
          .obj [("zarr_format".data, .num 1)],
          .array ⟨[], [], [], .null, [], none, .slash⟩ []⟩ =
        Json.stringify (.obj [("zarr_format".data, .num 1)]) ∧
      encodeZarrJson
          ⟨[0, 0, 0, 0, 0, 0, 0, 0], "a".data,
            .obj [("zarr_format".data, .num 1)],
            .array ⟨[], [], [], .null, [], none, .slash⟩ []⟩ ≠
        Json.stringify
          (synthesizedArrayDoc ⟨[], [], [], .null, [], none, .slash⟩) := by
  constructor
  · rfl
  · intro hcontra
    rw [show encodeZarrJson
        ⟨[0, 0, 0, 0, 0, 0, 0, 0], "a".data,
          .obj [("zarr_format".data, .num 1)],
          .array ⟨[], [], [], .null, [], none, .slash⟩ []⟩ =
        Json.stringify (.obj [("zarr_format".data, .num 1)]) from rfl] at hcontra
    simp only [synthesizedArrayDoc, List.map, List.append_nil] at hcontra
    simp [Json.stringify, Json.stringifyEntries, Json.stringifyList, jsonEscape,
      jsonEscapeChar, LBRACE, RBRACE, hexDigitChar,
      show (Int.repr 1).data = ['1'] from rfl,
      show (Int.repr 3).data = ['3'] from rfl] at hcontra

/-- C5 amended: for an array node, `encodeZarrJson` emits `userAttributes`
verbatim iff `userAttributes.zarr_format` is truthy in the JS sense (present
and not `0`, `""`, `null`, or `false`); otherwise it synthesises the Zarr v3
document from the decoded `zarrMetadata` (shape, regular chunk grid with the
chunk shape, chunk-key encoding, fill_value, codecs, dimension_names when
present, empty attributes). -/
theorem c5_encodeZarrJson_amended (node : NodeSnapshot)
    (md : ZarrArrayMetadata) (ms : List ManifestRef)
    (h : node.nodeData = .array md ms) :
    (jsTruthyOpt (jsGet node.userAttributes "zarr_format".data) = true →
        encodeZarrJson node = Json.stringify node.userAttributes) ∧
      (jsTruthyOpt (jsGet node.userAttributes "zarr_format".data) = false →
        encodeZarrJson node = Json.stringify (synthesizedArrayDoc md)) := by
  obtain ⟨id, path, attrs, nd⟩ := node
  cases h
  constructor
  · intro ht; simp [encodeZarrJson, ht]
  · intro hf; simp [encodeZarrJson, hf]

/-- Witness for C5: the amended theorem applied at concrete truthy
(`zarr_format = 3`) and falsy (attributes `{}`) array nodes. -/
theorem c5_encodeZarrJson_amended_witness :
    encodeZarrJson
        ⟨[0, 0, 0, 0, 0, 0, 0, 0], "a".data,
          .obj [("zarr_format".data, .num 3)],
          .array ⟨[], [], [], .null, [], none, .slash⟩ []⟩ =
        Json.stringify (.obj [("zarr_format".data, .num 3)]) ∧
      encodeZarrJson
          ⟨[0, 0, 0, 0, 0, 0, 0, 0], "a".data, .obj [],
            .array ⟨[], [], [], .null, [], none, .slash⟩ []⟩ =
        Json.stringify
          (synthesizedArrayDoc ⟨[], [], [], .null, [], none, .slash⟩) :=
  ⟨(c5_encodeZarrJson_amended _ _ _ rfl).1 (by decide),
   (c5_encodeZarrJson_amended _ _ _ rfl).2 (by decide)⟩



/-! ## Theorems: C1 (chunk storage-mode selection) -/

/-- C1: `parseChunkRef` implements exactly the claimed first-match-wins
storage-mode selection (inline, then virtual, then native, else skip), and
never throws: it is the total function `specStorageModeSelection`, and
`decodeManifest`'s refs loop (`buildChunkMap`) drops exactly the records on
which it returns `none`. -/
theorem c1_parseChunkRef_selection (t : ChunkRefTable) :
    parseChunkRef t = specStorageModeSelection t := by
  obtain ⟨idx, inl, off, len, cid, loc⟩ := t
  cases inl with
  | none =>
      cases loc with
      | none => cases cid <;> rfl
      | some l =>
          cases l with
          | nil => cases cid <;> rfl
          | cons c cs => simp [parseChunkRef, specStorageModeSelection]
  | some d =>
      cases d with
      | nil =>
          cases loc with
          | none => cases cid <;> rfl
          | some l =>
              cases l with
              | nil => cases cid <;> rfl
              | cons c cs => simp [parseChunkRef, specStorageModeSelection]
      | cons b bs => simp [parseChunkRef, specStorageModeSelection]

/-! ## Theorems: C9 (envelope length guard) -/

/-- C9: any input shorter than 39 bytes makes `parseEnvelopeHeader` (and so
`decodeEnvelope`, for every decompressor) fail with the too-short error
before any header field is read, so header parsing never indexes past the
end of the input. -/
theorem c9_envelope_short_input (data : List Nat) (h : data.length < 39) :
    parseEnvelopeHeader data = .error (.tooShort data.length) ∧
      ∀ zstd, decodeEnvelope zstd data = .error (.tooShort data.length) := by
  have hp : parseEnvelopeHeader data = .error (.tooShort data.length) := by
    simp [parseEnvelopeHeader, h]
  exact ⟨hp, fun zstd => by simp [decodeEnvelope, hp]⟩

/-- Witness for C9 at the empty input. -/
theorem c9_envelope_short_input_witness :
    parseEnvelopeHeader [] = .error (.tooShort 0) ∧
      decodeEnvelope (fun l => .ok l) [] = .error (.tooShort 0) :=
  ⟨(c9_envelope_short_input [] (by decide)).1,
   (c9_envelope_short_input [] (by decide)).2 _⟩

/-! ## Theorems: C6 (absence is not an error on the chunk path) -/

/-- C6: `store.get`'s chunk path returns absent rather than throwing when
the node is missing, when no `ManifestRef` covers the coordinates, or when
the coordinate key is missing from the decoded manifest; and a node whose
`userData` fails to parse gets an empty attribute map. -/
theorem c6_absence_is_not_error (snap : Snapshot)
    (lookup : List Char → Manifest) (path : List Char) (coords : List Nat) :
    (findNode snap path = none →
        getChunkPayload snap lookup path coords = none) ∧
      (∀ node md ms, findNode snap path = some node →
        node.nodeData = .array md ms → findManifestForChunk ms coords = none →
        getChunkPayload snap lookup path coords = none) ∧
      (∀ node md ms mref, findNode snap path = some node →
        node.nodeData = .array md ms →
        findManifestForChunk ms coords = some mref →
        findChunk (lookup mref.id) node.id coords = none →
        getChunkPayload snap lookup path coords = none) ∧
      (∀ userData : List Nat, nodeUserAttributes userData none = Json.obj []) := by
  refine ⟨?_, ?_, ?_, ?_⟩
  · intro h; simp [getChunkPayload, h]
  · intro node md ms hn ha hm
    simp [getChunkPayload, hn, ha, hm]
  · intro node md ms mref hn ha hm hc
    simp [getChunkPayload, hn, ha, hm, hc]
  · intro userData
    simp [nodeUserAttributes]

/-- Witness for C6: the three absence cases at concrete stores (empty
snapshot; an array with no manifests; a covering manifest with no chunks)
and a failed `userData` parse. -/
theorem c6_absence_is_not_error_witness :
    getChunkPayload ⟨"s".data, none, [], []⟩ (fun _ => ⟨"m".data, []⟩)
        "a".data [0] = none ∧
      getChunkPayload
          ⟨"s".data, none, [],
            [⟨[1, 0, 0, 0, 0, 0, 0, 0], "a".data, Json.obj [],
              .array ⟨[], [], [], .null, [], none, .slash⟩ []⟩]⟩
          (fun _ => ⟨"m".data, []⟩) "a".data [0] = none ∧
      getChunkPayload
          ⟨"s".data, none, [],
            [⟨[1, 0, 0, 0, 0, 0, 0, 0], "a".data, Json.obj [],
              .array ⟨[], [], [], .null, [], none, .slash⟩
                [⟨"M0".data, [(0, 0)]⟩]⟩]⟩
          (fun _ => ⟨"m".data, []⟩) "a".data [0] = none ∧
      nodeUserAttributes [123] none = Json.obj [] := by
  have hfind : findNode (⟨"s".data, none, [], []⟩ : Snapshot) "a".data = none := by
    rw [findNode, findNodeAux]
    norm_num
  have hnode :
      findNode
          (⟨"s".data, none, [],
            [⟨[1, 0, 0, 0, 0, 0, 0, 0], "a".data, Json.obj [],
              .array ⟨[], [], [], .null, [], none, .slash⟩ []⟩]⟩ : Snapshot)
          "a".data =
        some ⟨[1, 0, 0, 0, 0, 0, 0, 0], "a".data, Json.obj [],
          .array ⟨[], [], [], .null, [], none, .slash⟩ []⟩ := by
    rw [findNode, findNodeAux]
    norm_num [normalizePath, dropOneLeadingSlash, dropOneTrailingSlash,
      compareChars]
  have hnode2 :
      findNode
          (⟨"s".data, none, [],
            [⟨[1, 0, 0, 0, 0, 0, 0, 0], "a".data, Json.obj [],
              .array ⟨[], [], [], .null, [], none, .slash⟩
                [⟨"M0".data, [(0, 0)]⟩]⟩]⟩ : Snapshot)
          "a".data =
        some ⟨[1, 0, 0, 0, 0, 0, 0, 0], "a".data, Json.obj [],
          .array ⟨[], [], [], .null, [], none, .slash⟩
            [⟨"M0".data, [(0, 0)]⟩]⟩ := by
    rw [findNode, findNodeAux]
    norm_num [normalizePath, dropOneLeadingSlash, dropOneTrailingSlash,
      compareChars]
  refine ⟨(c6_absence_is_not_error _ _ _ _).1 hfind,
    (c6_absence_is_not_error _ _ _ _).2.1 _ _ _ hnode rfl rfl,
    (c6_absence_is_not_error _ _ _ _).2.2.1 _ _ _ ⟨"M0".data, [(0, 0)]⟩ hnode2 rfl
      (by decide) (by decide),
    (c6_absence_is_not_error ⟨"s".data, none, [], []⟩ (fun _ => ⟨"m".data, []⟩)
      "a".data [0]).2.2.2 [123]⟩

/-! ## Theorems: C10 (chunk request on a group node) -/

/-- C10: a chunk request whose prefix resolves to an existing group node
returns absent, for every manifest lookup function (no manifest is ever
consulted). -/
theorem c10_group_chunk_request_absent (snap : Snapshot) (path : List Char)
    (coords : List Nat) (node : NodeSnapshot)
    (h : findNode snap path = some node) (hg : node.nodeData = .group) :
    ∀ lookup : List Char → Manifest,
      getChunkPayload snap lookup path coords = none := by
  intro lookup
  simp [getChunkPayload, h, hg]

/-- Witness for C10 at a one-group-node snapshot. -/
theorem c10_group_chunk_request_absent_witness :
    getChunkPayload
        ⟨"s".data, none, [],
          [⟨[1, 0, 0, 0, 0, 0, 0, 0], "g".data, Json.obj [], .group⟩]⟩
        (fun _ => ⟨"m".data, []⟩) "g".data [0, 1] = none := by
  have hnode :
      findNode
          (⟨"s".data, none, [],
            [⟨[1, 0, 0, 0, 0, 0, 0, 0], "g".data, Json.obj [], .group⟩]⟩ :
            Snapshot) "g".data =
        some ⟨[1, 0, 0, 0, 0, 0, 0, 0], "g".data, Json.obj [], .group⟩ := by
    rw [findNode, findNodeAux]
    norm_num [normalizePath, dropOneLeadingSlash, dropOneTrailingSlash,
      compareChars]
  exact c10_group_chunk_request_absent _ _ _ _ hnode rfl _


/-! ## Theorems: C8 (resolve views and basePath canonicalisation) -/

theorem noDoubleSlash_cons_iff (a : Char) (xs : List Char) :
    noDoubleSlash (a :: xs) = true ↔
      ¬(a = '/' ∧ xs.head? = some '/') ∧ noDoubleSlash xs = true := by
  cases xs with
  | nil => simp [noDoubleSlash]
  | cons b r =>
      simp only [noDoubleSlash, Bool.and_eq_true, Bool.not_eq_true',
        List.head?_cons, Option.some.injEq]
      constructor
      · rintro ⟨h1, h2⟩
        refine ⟨?_, h2⟩
        rintro ⟨rfl, rfl⟩
        simp at h1
      · rintro ⟨h1, h2⟩
        refine ⟨?_, h2⟩
        by_cases ha : a = '/'
        · subst ha
          by_cases hb : b = '/'
          · exact absurd ⟨rfl, hb.symm ▸ rfl⟩ h1
          · simp [hb]
        · simp [ha]

/-- The head of a `dropWhile (= '/')` result is never a slash. -/
theorem head?_dropWhile_slash (r : List Char) :
    (r.dropWhile fun x => x = '/').head? ≠ some '/' := by
  induction r with
  | nil => simp
  | cons a t ih =>
      by_cases h : a = '/'
      · simpa [List.dropWhile_cons, h] using ih
      · simp [List.dropWhile_cons, h]

/-- `collapseSlashes` preserves the head character. -/
theorem collapseSlashes_head? (l : List Char) :
    (collapseSlashes l).head? = l.head? := by
  cases l with
  | nil => simp [collapseSlashes]
  | cons c r =>
      rw [collapseSlashes]
      split_ifs with h
      · simp [h]
      · simp

/-- `collapseSlashes` output has no double slash. -/
theorem noDoubleSlash_collapseSlashes (l : List Char) :
    noDoubleSlash (collapseSlashes l) = true := by
  have H : ∀ n (l : List Char), l.length ≤ n →
      noDoubleSlash (collapseSlashes l) = true := by
    intro n
    induction n with
    | zero =>
        intro l hl
        have : l = [] := by cases l <;> simp_all
        subst this
        simp [collapseSlashes, noDoubleSlash]
    | succ k ih =>
        intro l hl
        match l with
        | [] => simp [collapseSlashes, noDoubleSlash]
        | c :: r =>
            rw [collapseSlashes]
            split_ifs with h
            · rw [noDoubleSlash_cons_iff]
              refine ⟨?_, ?_⟩
              · rintro ⟨-, hhead⟩
                rw [collapseSlashes_head?] at hhead
                exact head?_dropWhile_slash r hhead
              · refine ih _ ?_
                have := (List.dropWhile_sublist (l := r) fun x => x = '/').length_le
                simp at hl
                omega
            · rw [noDoubleSlash_cons_iff]
              refine ⟨?_, ?_⟩
              · rintro ⟨hc, -⟩
                exact h hc
              · refine ih _ ?_
                simp at hl
                omega
  exact H l.length l le_rfl

/-- Dropping the head keeps `noDoubleSlash`. -/
theorem noDoubleSlash_tail (a : Char) (xs : List Char)
    (h : noDoubleSlash (a :: xs) = true) : noDoubleSlash xs = true :=
  ((noDoubleSlash_cons_iff a xs).mp h).2

/-- A slash-free-prefix fact: `noDoubleSlash` survives removing the last
element. -/
theorem noDoubleSlash_dropLast (l : List Char)
    (h : noDoubleSlash l = true) : noDoubleSlash l.dropLast = true := by
  induction l with
  | nil => rfl
  | cons a xs ih =>
      cases xs with
      | nil => rfl
      | cons b r =>
          have h' := (noDoubleSlash_cons_iff a (b :: r)).mp h
          rw [List.dropLast_cons₂, noDoubleSlash_cons_iff]
          refine ⟨?_, ih h'.2⟩
          rintro ⟨ha, hhead⟩
          refine h'.1 ⟨ha, ?_⟩
          cases r with
          | nil => simp at hhead
          | cons x t => simpa using hhead

/-- `noDoubleSlash` forbids a final `"//"`. -/
theorem noDoubleSlash_no_trailing_pair (xs : List Char)
    (h : noDoubleSlash (xs ++ ['/']) = true) : xs.getLast? ≠ some '/' := by
  induction xs with
  | nil => simp
  | cons a t ih =>
      rw [List.cons_append, noDoubleSlash_cons_iff] at h
      cases t with
      | nil =>
          simp only [List.nil_append, List.head?_cons] at h
          intro hcontra
          rw [List.getLast?_singleton] at hcontra
          injection hcontra with ha
          exact h.1 ⟨ha, trivial⟩
      | cons b r =>
          rw [List.getLast?_cons_cons]
          exact ih h.2

/-- The `getLast?` of a nonempty `dropLast` is an interior element; after
removing a trailing slash from a `noDoubleSlash` list, the new last element
is not a slash. -/
theorem dropOneTrailingSlash_canonical (l : List Char)
    (h : noDoubleSlash l = true) :
    noDoubleSlash (dropOneTrailingSlash l) = true ∧
      (dropOneTrailingSlash l).getLast? ≠ some '/' := by
  rw [dropOneTrailingSlash]
  split_ifs with hl
  · refine ⟨noDoubleSlash_dropLast l h, ?_⟩
    rcases List.eq_nil_or_concat l with rfl | ⟨xs, x, rfl⟩
    · simp at hl
    · simp only [List.concat_eq_append] at h hl ⊢
      rw [List.getLast?_concat] at hl
      cases hl
      rw [List.dropLast_concat]
      exact noDoubleSlash_no_trailing_pair xs h
  · exact ⟨h, hl⟩

/-- `dropLast` preserves the head when it does not empty the list. -/
theorem head?_dropLast_ne (l : List Char) (c : Char)
    (h : l.head? ≠ some c) : l.dropLast.head? ≠ some c := by
  cases l with
  | nil => simp
  | cons a xs =>
      cases xs with
      | nil => simp
      | cons b r =>
          rw [List.dropLast_cons₂]
          simpa using h

/-- `stripSlashEnds` of a `noDoubleSlash` list is canonical. -/
theorem stripSlashEnds_canonical (l : List Char)
    (h : noDoubleSlash l = true) :
    isCanonicalPath (stripSlashEnds l) = true := by
  rw [stripSlashEnds]
  have hl1 : noDoubleSlash (dropOneLeadingSlash l) = true := by
    cases l with
    | nil => exact h
    | cons a xs =>
        by_cases ha : a = '/'
        · subst ha
          rw [dropOneLeadingSlash]
          exact noDoubleSlash_tail _ _ h
        · rw [show dropOneLeadingSlash (a :: xs) = a :: xs by
            cases xs <;> simp [dropOneLeadingSlash, ha]]
          exact h
  have hh1 : (dropOneLeadingSlash l).head? ≠ some '/' := by
    cases l with
    | nil => simp [dropOneLeadingSlash]
    | cons a xs =>
        by_cases ha : a = '/'
        · subst ha
          rw [dropOneLeadingSlash]
          intro hx
          exact ((noDoubleSlash_cons_iff _ _).mp h).1 ⟨rfl, hx⟩
        · rw [show dropOneLeadingSlash (a :: xs) = a :: xs by
            cases xs <;> simp [dropOneLeadingSlash, ha]]
          simpa using ha
  obtain ⟨h2, hlast⟩ := dropOneTrailingSlash_canonical _ hl1
  have hh2 : (dropOneTrailingSlash (dropOneLeadingSlash l)).head? ≠ some '/' := by
    rw [dropOneTrailingSlash]
    split_ifs with hx
    · exact head?_dropLast_ne _ _ hh1
    · exact hh1
  rw [isCanonicalPath]
  simp [h2, hh2, hlast]

/-- C8 counterexample: resolving `"a//b"` against an empty `basePath` keeps
the `"//"` run, so the resulting `basePath` is not canonical although the
shared references behave as claimed. -/
theorem c8_resolve_counterexample :
    (resolveStore ⟨"u".data, 0, 0, none, []⟩ "a//b".data).basePath =
        "a//b".data ∧
      isCanonicalPath "a//b".data = false := by decide

/-- C8 amended: `resolve` returns a new view sharing the snapshot, backend
and manifest cache by reference; when the store's `basePath` is non-empty
the new `basePath` is canonical (runs of `/` collapsed, ends stripped), and
when it is empty the subpath only has a single leading and a single trailing
slash removed, with no run-collapsing. -/
theorem c8_resolve_amended (s : IcechunkStore) (p : List Char) :
    (resolveStore s p).snapshot = s.snapshot ∧
      (resolveStore s p).backend = s.backend ∧
      (resolveStore s p).manifestCache = s.manifestCache ∧
      (s.basePath ≠ [] →
        isCanonicalPath (resolveStore s p).basePath = true) ∧
      (s.basePath = [] → (resolveStore s p).basePath = stripSlashEnds p) := by
  refine ⟨rfl, rfl, rfl, ?_, ?_⟩
  · intro hb
    have hbp : (resolveStore s p).basePath =
        stripSlashEnds (collapseSlashes (s.basePath ++ '/' :: p)) := by
      simp [resolveStore, hb]
    rw [hbp]
    exact stripSlashEnds_canonical _ (noDoubleSlash_collapseSlashes _)
  · intro hb
    simp [resolveStore, hb]

/-- Witness for C8: the amended theorem applied at a store with base
`"a"` and subpath `"b//c/"`. -/
theorem c8_resolve_amended_witness :
    isCanonicalPath
        (resolveStore ⟨"u".data, 0, 0, none, "a".data⟩ "b//c/".data).basePath =
      true :=
  ((c8_resolve_amended ⟨"u".data, 0, 0, none, "a".data⟩ "b//c/".data).2.2.2.1)
    (by decide)


/-! ## Theorems: C7 (the Zarr key parser) -/

/-- Digits are not JS whitespace. -/
theorem digit_not_ws (c : Char) (h : isDigitC c = true) :
    jsWhitespaceChar c = false := by
  simp only [isDigitC, Bool.and_eq_true, decide_eq_true_eq] at h
  simp only [jsWhitespaceChar, List.mem_cons, List.not_mem_nil, or_false,
    decide_eq_false_iff_not]
  omega

/-- Digits are not line terminators. -/
theorem digit_not_lt (c : Char) (h : isDigitC c = true) :
    jsLineTerminator c = false := by
  simp only [isDigitC, Bool.and_eq_true, decide_eq_true_eq] at h
  simp only [jsLineTerminator, List.mem_cons, List.not_mem_nil, or_false,
    decide_eq_false_iff_not]
  omega

/-- Digits are distinct from any character outside the digit range. -/
theorem digit_ne (c d : Char) (h : isDigitC c = true)
    (hd : d.toNat < 48 ∨ 57 < d.toNat) : c ≠ d := by
  intro hc
  subst hc
  simp only [isDigitC, Bool.and_eq_true, decide_eq_true_eq] at h
  omega

/-- `takeWhile`/`dropWhile` on an all-true list. -/
theorem takeWhile_dropWhile_all {p : Char → Bool} (l : List Char)
    (h : l.all p = true) : l.takeWhile p = l ∧ l.dropWhile p = [] := by
  induction l with
  | nil => simp
  | cons a t ih =>
      simp only [List.all_cons, Bool.and_eq_true] at h
      simp [List.takeWhile_cons, List.dropWhile_cons, h.1, ih h.2]

/-- Trimming a whitespace-free string is the identity. -/
theorem jsTrim_of_no_ws (t : List Char)
    (h : ∀ c ∈ t, jsWhitespaceChar c = false) : jsTrim t = t := by
  have h1 : t.dropWhile jsWhitespaceChar = t := by
    cases t with
    | nil => rfl
    | cons a r => simp [List.dropWhile_cons, h a (by simp)]
  have h2 : t.reverse.dropWhile jsWhitespaceChar = t.reverse := by
    cases hr : t.reverse with
    | nil => rfl
    | cons a r =>
        have ha : a ∈ t := by
          rw [← List.mem_reverse, hr]
          simp
        simp [List.dropWhile_cons, h a ha]
  rw [jsTrim, h1, h2, List.reverse_reverse]

/-- A nonempty all-digits token parses as its decimal value. -/
theorem parseUnsignedDecJs_digits (t : List Char) (hne : t ≠ [])
    (hd : t.all isDigitC = true) :
    parseUnsignedDecJs t = some (digitsVal t : ℚ) := by
  obtain ⟨htake, hdrop⟩ := takeWhile_dropWhile_all t hd
  rw [parseUnsignedDecJs]
  simp only [htake, hdrop]
  rw [if_neg hne]

/-- `Number()` of a nonempty all-digits token is its decimal value. -/
theorem jsStringToNumber_digits (t : List Char) (hne : t ≠ [])
    (hd : t.all isDigitC = true) :
    jsStringToNumber t = .val (digitsVal t) := by
  have htrim : jsTrim t = t :=
    jsTrim_of_no_ws t fun c hc =>
      digit_not_ws c (by
        rw [List.all_eq_true] at hd
        exact hd c hc)
  rw [List.all_eq_true] at hd
  match t, hne with
  | c :: r, _ =>
      have hc : isDigitC c = true := hd c (by simp)
      rw [jsStringToNumber, htrim]
      dsimp only
      rw [if_neg (digit_ne c '+' hc (by left; decide)),
        if_neg (digit_ne c '-' hc (by left; decide))]
      have hinf : (c :: r) ≠ "Infinity".data := by
        intro hcontra
        have : c = 'I' := by
          have := congrArg List.head? hcontra
          simpa using this
        exact digit_ne c 'I' hc (by right; decide) this
      have hdec : parseUnsignedDecJs (c :: r) = some (digitsVal (c :: r) : ℚ) :=
        parseUnsignedDecJs_digits _ (by simp) (by
          rw [List.all_eq_true]
          exact hd)
      cases r with
      | nil =>
          rw [parseUnsignedAllowNonDec, if_neg hinf]
          · simp only [hdec]
          · intro c1 c2 r hcontra
            simp at hcontra
      | cons c2 r2 =>
          have hc2 : isDigitC c2 = true := hd c2 (by simp)
          rw [parseUnsignedAllowNonDec, if_neg hinf]
          rw [if_neg, if_neg, if_neg]
          · simp only [hdec]
          · rintro ⟨-, h2 | h2⟩
            · exact digit_ne c2 'b' hc2 (by right; decide) h2
            · exact digit_ne c2 'B' hc2 (by right; decide) h2
          · rintro ⟨-, h2 | h2⟩
            · exact digit_ne c2 'o' hc2 (by right; decide) h2
            · exact digit_ne c2 'O' hc2 (by right; decide) h2
          · rintro ⟨-, h2 | h2⟩
            · exact digit_ne c2 'x' hc2 (by right; decide) h2
            · exact digit_ne c2 'X' hc2 (by right; decide) h2

/-- `getLast?` of a filtered range is the largest satisfying index when one
dominates. -/
theorem filter_range_getLast (f : Nat → Bool) (n m : Nat) (hm : m < n)
    (hf : f m = true) (hmax : ∀ j, m < j → f j = false) :
    ((List.range n).filter f).getLast? = some m := by
  induction n with
  | zero => omega
  | succ k ih =>
      rw [List.range_succ, List.filter_append]
      by_cases hk : m = k
      · subst hk
        simp [hf, List.getLast?_concat]
      · have hk' : f k = false := hmax k (by omega)
        have hnil : List.filter f [k] = [] := by simp [hk']
        rw [hnil, List.append_nil]
        exact ih (by omega)

/-- The marker occurrence at the append point is viable. -/
theorem isCSplitAt_base (p s : List Char) (hs : s ≠ []) :
    isCSplitAt (p ++ '/' :: 'c' :: '/' :: s) p.length = true := by
  rw [isCSplitAt, List.drop_left]
  have hlen : p.length + 3 < (p ++ '/' :: 'c' :: '/' :: s).length := by
    rw [List.length_append]
    have := List.length_pos.mpr hs
    simp only [List.length_cons]
    omega
  rw [Bool.and_eq_true]
  exact ⟨by simp [List.take], by simpa using hlen⟩

/-- No viable occurrence lies to the right of the append point when the
tail contains no `'c'`. -/
theorem isCSplitAt_after (p s : List Char) (hc : 'c' ∉ s) (j : Nat)
    (hj : p.length < j) :
    isCSplitAt (p ++ '/' :: 'c' :: '/' :: s) j = false := by
  rw [isCSplitAt]
  by_cases htake : ((p ++ '/' :: 'c' :: '/' :: s).drop j).take 3 =
      ['/', 'c', '/']
  · exfalso
    have hget1 : ((p ++ '/' :: 'c' :: '/' :: s).drop j).get? 1 = some 'c' := by
      rw [← List.get?_take (show (1 : Nat) < 3 by omega), htake]
      rfl
    rw [List.get?_drop] at hget1
    rw [List.get?_append_right (by omega)] at hget1
    have hidx : j + 1 - p.length ≥ 2 := by omega
    match hk : j + 1 - p.length, hidx with
    | 2, _ => rw [hk] at hget1; simp at hget1
    | (k + 3), _ =>
        rw [hk] at hget1
        simp only [List.get?_cons_succ] at hget1
        exact hc (List.get?_mem hget1)
  · simp [htake]

/-- The greedy chunk regex splits a `"{p}/c/{s}"` key at the last marker:
with no `'c'` in the nonempty tail, that is exactly `(p, s)`. -/
theorem chunkMatch_append (p s : List Char) (hs : s ≠ []) (hc : 'c' ∉ s)
    (hlt : (p ++ '/' :: 'c' :: '/' :: s).any jsLineTerminator = false) :
    chunkMatch (p ++ '/' :: 'c' :: '/' :: s) = some (p, s) := by
  rw [chunkMatch, if_neg (by rw [hlt]; exact Bool.false_ne_true),
    filter_range_getLast _ _ p.length
      (by
        rw [List.length_append]
        simp only [List.length_cons]
        omega)
      (isCSplitAt_base p s hs)
      (fun j hj => isCSplitAt_after p s hc j hj)]
  dsimp only
  rw [List.take_left]
  have hdrop : (p ++ '/' :: 'c' :: '/' :: s).drop (p.length + 3) = s := by
    rw [← List.drop_drop, List.drop_left]
    rfl
  rw [hdrop]

/-- Properties of a slash-join of nonempty digit tokens. -/
theorem joinSlash_digit_props (toks : List (List Char)) (h : toks ≠ [])
    (hall : ∀ t ∈ toks, t ≠ [] ∧ t.all isDigitC = true) :
    joinSlash toks ≠ [] ∧
      (∀ c ∈ joinSlash toks, c = '/' ∨ isDigitC c = true) ∧
      ∃ d, (joinSlash toks).getLast? = some d ∧ isDigitC d = true := by
  induction toks with
  | nil => exact absurd rfl h
  | cons t rest ih =>
      cases rest with
      | nil =>
          obtain ⟨hne, hdig⟩ := hall t (by simp)
          rw [List.all_eq_true] at hdig
          refine ⟨by simpa [joinSlash] using hne, ?_, ?_⟩
          · intro c hcmem
            right
            exact hdig c (by simpa [joinSlash] using hcmem)
          · cases hlast : t.getLast? with
            | none => exact absurd (List.getLast?_eq_none_iff.mp hlast) hne
            | some d =>
                refine ⟨d, by simpa [joinSlash] using hlast, ?_⟩
                obtain ⟨h2, rfl⟩ := List.mem_getLast?_eq_getLast
                  (show d ∈ t.getLast? from hlast)
                exact hdig _ (List.getLast_mem h2)
      | cons t2 rest2 =>
          obtain ⟨hjne, hjmem, d, hdlast, hddig⟩ :=
            ih (by simp) fun x hx => hall x (by simp [hx])
          obtain ⟨hne, hdig⟩ := hall t (by simp)
          rw [List.all_eq_true] at hdig
          rw [show joinSlash (t :: t2 :: rest2) =
            t ++ '/' :: joinSlash (t2 :: rest2) from rfl]
          refine ⟨by simp, ?_, ?_⟩
          · intro c hcmem
            rw [List.mem_append] at hcmem
            rcases hcmem with hcmem | hcmem
            · exact Or.inr (hdig c hcmem)
            · rcases List.mem_cons.mp hcmem with rfl | hcmem
              · exact Or.inl rfl
              · exact hjmem c hcmem
          · refine ⟨d, ?_, hddig⟩
            obtain ⟨x, xs, hxx⟩ := List.exists_cons_of_ne_nil hjne
            rw [List.getLast?_append, hxx, List.getLast?_cons_cons, ← hxx,
              hdlast]
            rfl

/-- `split("/")` of a whitespace-free slash-join is the token list. -/
theorem splitOnSlash_no_slash (t : List Char) (h : '/' ∉ t) :
    splitOnSlash t = [t] := by
  induction t with
  | nil => rfl
  | cons c r ih =>
      have hc : c ≠ '/' := fun hcontra => h (hcontra ▸ List.mem_cons_self c r)
      rw [splitOnSlash, if_neg hc, ih fun hr => h (List.mem_cons_of_mem c hr)]

/-- `split("/")` after appending `"/" ++ X` to a slash-free prefix. -/
theorem splitOnSlash_append (t X : List Char) (h : '/' ∉ t) :
    splitOnSlash (t ++ '/' :: X) = t :: splitOnSlash X := by
  induction t with
  | nil =>
      rw [List.nil_append, splitOnSlash, if_pos rfl]
  | cons c r ih =>
      have hc : c ≠ '/' := fun hcontra => h (hcontra ▸ List.mem_cons_self c r)
      rw [List.cons_append, splitOnSlash, if_neg hc,
        ih fun hr => h (List.mem_cons_of_mem c hr)]

/-- `split("/")` inverts `join("/")` on slash-free tokens. -/
theorem splitOnSlash_joinSlash (toks : List (List Char)) (h : toks ≠ [])
    (hns : ∀ t ∈ toks, '/' ∉ t) :
    splitOnSlash (joinSlash toks) = toks := by
  induction toks with
  | nil => exact absurd rfl h
  | cons t rest ih =>
      cases rest with
      | nil =>
          rw [show joinSlash [t] = t from rfl]
          exact splitOnSlash_no_slash t (hns t (by simp))
      | cons t2 rest2 =>
          rw [show joinSlash (t :: t2 :: rest2) =
            t ++ '/' :: joinSlash (t2 :: rest2) from rfl]
          rw [splitOnSlash_append _ _ (hns t (by simp))]
          rw [ih (by simp) fun x hx => hns x (by simp [hx])]

/-- A true `endsWith` pins the last character. -/
theorem endsWith_getLast (l suf : List Char) (h : listEndsWith l suf = true)
    (hsuf : suf ≠ []) : l.getLast? = suf.getLast? := by
  rw [listEndsWith, beq_iff_eq] at h
  conv_lhs => rw [← List.take_append_drop (l.length - suf.length) l]
  rw [List.getLast?_append, h]
  have hsome : suf.getLast?.isSome := List.getLast?_isSome.mpr hsuf
  obtain ⟨y, hy⟩ := Option.isSome_iff_exists.mp hsome
  rw [hy]
  rfl

/-- C7 counterexample: the chunk key `"a/c/1//2"` contains the empty
coordinate token (not a numeric token), yet `parseKey` does not raise: JS
`Number("")` is `0`, so the key parses as a chunk request at `(1, 0, 2)`,
where the claim demands a `BadKeyError`. -/
theorem c7_parseKey_counterexample :
    parseKey "a/c/1//2".data =
        .ok (.chunk "a".data [.val 1, .val 0, .val 2]) ∧
      (splitOnSlash "1//2".data).all specNumericToken = false := by decide

/-- C7 amended: `"zarr.json"` is the root metadata request; a key
`"{p}/c/{i0}/{i1}/…"` with nonempty digit coordinate tokens parses to a
chunk request at those coordinates and never raises; and `parseKey` raises
exactly on chunk-pattern keys with a coordinate token that JS `Number()`
converts to `NaN` (the empty token converts to `0`, so it does not raise).
-/
theorem c7_parseKey_amended :
    parseKey "zarr.json".data = .ok (.metadata []) ∧
      (∀ (p : List Char) (toks : List (List Char)),
        (∀ c ∈ p, jsLineTerminator c = false) → toks ≠ [] →
        (∀ t ∈ toks, t ≠ [] ∧ t.all isDigitC = true) →
        parseKey (p ++ '/' :: 'c' :: '/' :: joinSlash toks) =
          .ok (.chunk p (toks.map fun t => JsNum.val (digitsVal t)))) ∧
      (∀ key : List Char,
        (∃ e, parseKey key = .error e) ↔
          ¬(key = "zarr.json".data ∨
              listEndsWith key "/zarr.json".data = true) ∧
            ∃ ps, chunkMatch key = some ps ∧
              ((splitOnSlash ps.2).map jsStringToNumber).any
                (· == JsNum.nan) = true) := by
  refine ⟨by decide, ?_, ?_⟩
  · intro p toks hp htne hall
    obtain ⟨hsne, hmem, d, hdlast, hddig⟩ := joinSlash_digit_props toks htne hall
    have hcnot : 'c' ∉ joinSlash toks := by
      intro hcmem
      rcases hmem 'c' hcmem with h | h
      · exact absurd h (by decide)
      · exact absurd h (by decide)
    have hns : ∀ t ∈ toks, '/' ∉ t := by
      intro t ht hslash
      have hta := (hall t ht).2
      rw [List.all_eq_true] at hta
      exact absurd (hta '/' hslash) (by decide)
    have hne1 : p ++ '/' :: 'c' :: '/' :: joinSlash toks ≠ "zarr.json".data := by
      intro hcontra
      have hslashmem : '/' ∈ p ++ '/' :: 'c' :: '/' :: joinSlash toks := by simp
      rw [hcontra] at hslashmem
      exact absurd hslashmem (by decide)
    have hkeylast :
        (p ++ '/' :: 'c' :: '/' :: joinSlash toks).getLast? = some d := by
      rw [List.getLast?_append]
      obtain ⟨x, xs, hxx⟩ := List.exists_cons_of_ne_nil hsne
      rw [hxx, List.getLast?_cons_cons, List.getLast?_cons_cons,
        List.getLast?_cons_cons, ← hxx, hdlast]
      rfl
    have hne2 :
        listEndsWith (p ++ '/' :: 'c' :: '/' :: joinSlash toks)
          "/zarr.json".data = false := by
      by_contra hcontra
      rw [Bool.not_eq_false] at hcontra
      have hlast := endsWith_getLast _ _ hcontra (by decide)
      rw [hkeylast] at hlast
      rw [show ("/zarr.json".data).getLast? = some 'n' from rfl] at hlast
      injection hlast with hdn
      rw [hdn] at hddig
      exact absurd hddig (by decide)
    rw [parseKey, if_neg (by
      rintro (h | h)
      · exact hne1 h
      · rw [hne2] at h
        cases h)]
    have hlt : (p ++ '/' :: 'c' :: '/' :: joinSlash toks).any
        jsLineTerminator = false := by
      rw [List.any_eq_false]
      intro c hcmem
      rw [List.mem_append] at hcmem
      rcases hcmem with hcmem | hcmem
      · simp [hp c hcmem]
      · rcases List.mem_cons.mp hcmem with rfl | hcmem
        · decide
        · rcases List.mem_cons.mp hcmem with rfl | hcmem
          · decide
          · rcases List.mem_cons.mp hcmem with rfl | hcmem
            · decide
            · rcases hmem c hcmem with rfl | hdc
              · decide
              · simp [digit_not_lt c hdc]
    rw [chunkMatch_append p _ hsne hcnot hlt]
    dsimp only
    rw [splitOnSlash_joinSlash toks htne hns]
    have hmap : toks.map jsStringToNumber =
        toks.map fun t => JsNum.val (digitsVal t) :=
      List.map_congr_left fun t ht =>
        jsStringToNumber_digits t (hall t ht).1 (hall t ht).2
    rw [hmap]
    have hany : (toks.map fun t => JsNum.val (digitsVal t)).any
        (· == JsNum.nan) = false := by
      rw [List.any_eq_false]
      intro x hx
      rcases List.mem_map.mp hx with ⟨t, -, rfl⟩
      simp
    rw [if_neg (by rw [hany]; exact Bool.false_ne_true)]
  · intro key
    constructor
    · rintro ⟨e, he⟩
      rw [parseKey] at he
      by_cases hmeta : key = "zarr.json".data ∨
          listEndsWith key "/zarr.json".data = true
      · rw [if_pos hmeta] at he
        cases he
      · rw [if_neg hmeta] at he
        refine ⟨hmeta, ?_⟩
        cases hcm : chunkMatch key with
        | none => rw [hcm] at he; cases he
        | some ps =>
            rw [hcm] at he
            dsimp only at he
            by_cases hany : ((splitOnSlash ps.2).map jsStringToNumber).any
                (· == JsNum.nan) = true
            · exact ⟨ps, rfl, hany⟩
            · rw [if_neg hany] at he
              cases he
    · rintro ⟨hmeta, ps, hcm, hany⟩
      rw [parseKey, if_neg (by
        rintro (h | h)
        · exact hmeta (Or.inl h)
        · exact hmeta (Or.inr h)), hcm]
      dsimp only
      rw [if_pos hany]
      exact ⟨_, rfl⟩

/-- Witness for C7: the amended theorem applied at `p = "a"` and digit
tokens `["1", "2"]`. -/
theorem c7_parseKey_amended_witness :
    parseKey ("a".data ++ '/' :: 'c' :: '/' :: joinSlash [['1'], ['2']]) =
      .ok (.chunk "a".data [.val 1, .val 2]) := by
  have h := (c7_parseKey_amended).2.1 "a".data [['1'], ['2']]
    (by decide) (by decide) (by decide)
  exact h.trans (by decide)


end Icechunk
